import Mathlib

/-!
Verification of the conda software-deployment plugin
(`snakemake_software_deployment_plugin_conda`): a shallow embedding of its
specification model, lock-file codec, resolution engine, identity hasher,
artifact cache and deployment driver, together with theorems about them.

Python strings are modelled as `List Char` (Python strings are sequences of
code points).  Pure functions of the source become Lean functions; the
effectful operations (`_package_records`, `cache_assets`, `deploy`) become
explicit state-passing functions whose oracles (solver, gateway, network)
are parameters, and whose observable effects (calls issued, files created)
are recorded in the returned state.
-/

/-- PyStr models a Python `str` as its list of code points. -/
abbrev PyStr := List Char

/-- pyIsSpace models Python's `str.isspace` on a single character: the code
points stripped by `str.strip()`. -/
def pyIsSpace (c : Char) : Bool :=
  c.toNat ∈ [0x09, 0x0A, 0x0B, 0x0C, 0x0D, 0x1C, 0x1D, 0x1E, 0x1F, 0x20,
    0x85, 0xA0, 0x1680, 0x2000, 0x2001, 0x2002, 0x2003, 0x2004, 0x2005,
    0x2006, 0x2007, 0x2008, 0x2009, 0x200A, 0x2028, 0x2029, 0x202F, 0x205F,
    0x3000]

/-- pyStrip models Python `str.strip()`: remove leading and trailing
whitespace. -/
def pyStrip (s : PyStr) : PyStr :=
  ((s.dropWhile pyIsSpace).reverse.dropWhile pyIsSpace).reverse

/-- splitOnFirst splits a string at the first occurrence of `sep`
(the separator is dropped); `none` when `sep` does not occur. -/
def splitOnFirst (sep : Char) : PyStr → Option (PyStr × PyStr)
  | [] => none
  | c :: rest =>
    if c = sep then some ([], rest)
    else (splitOnFirst sep rest).map (fun p => (c :: p.1, p.2))

/-- splitOnChar models Python `str.split(sep)` for a one-character
separator: `"".split("-") = [""]`, `"a-b".split("-") = ["a", "b"]`. -/
def splitOnChar (sep : Char) : PyStr → List PyStr
  | [] => [[]]
  | c :: rest =>
    if c = sep then [] :: splitOnChar sep rest
    else
      match splitOnChar sep rest with
      | [] => [[c]]
      | p :: ps => (c :: p) :: ps

/-- joinDash models Python `"-".join(parts)`. -/
def joinDash : List PyStr → PyStr
  | [] => []
  | [x] => x
  | x :: y :: rest => x ++ '-' :: joinDash (y :: rest)

/-- pyRsplitDash3 models Python `s.rsplit("-", 3)`: split from the right at
most three times. -/
def pyRsplitDash3 (s : PyStr) : List PyStr :=
  let parts := splitOnChar '-' s
  if parts.length ≤ 4 then parts
  else joinDash (parts.take (parts.length - 3)) :: parts.drop (parts.length - 3)

/-- pathName models Python `pathlib.Path(p).name`: the final path component,
after dropping empty components and `"."` components (`Path("")` normalizes
to `"."`, whose name is the empty string). -/
def pathName (p : PyStr) : PyStr :=
  (((splitOnChar '/' p).filter (fun comp => comp ≠ [] && comp ≠ ['.'])).getLast?).getD []

/-- schemeChar models the characters `urllib.parse` admits in a URL scheme. -/
def schemeChar (c : Char) : Bool :=
  c.isAlphanum || c = '+' || c = '-' || c = '.'

/-- UrlParts is the result of `urllib.parse.urlparse` restricted to the
fields the plugin reads (`params` is never used). -/
structure UrlParts where
  scheme : PyStr
  netloc : PyStr
  path : PyStr
  query : PyStr
  fragment : PyStr
deriving DecidableEq, Repr

/-- urlparse models `urllib.parse.urlparse` as CPython implements it:
split the scheme at the first `:` when the prefix is a valid scheme
(lower-cased on extraction), take the netloc after `//` up to the next
`/`, `?` or `#`, then split off the fragment at the first `#` and the
query at the first `?`. -/
def urlparse (s : PyStr) : UrlParts :=
  let (scheme, rest) :=
    match splitOnFirst ':' s with
    | some (pre, post) =>
      if pre ≠ [] && pre.all schemeChar && (pre.headD ' ').isAlpha then
        (pre.map Char.toLower, post)
      else ([], s)
    | none => ([], s)
  let (netloc, rest2) :=
    match rest with
    | '/' :: '/' :: r =>
      let nl := r.takeWhile (fun c => c ≠ '/' && c ≠ '?' && c ≠ '#')
      (nl, r.drop nl.length)
    | _ => ([], rest)
  let (rest3, fragment) :=
    match splitOnFirst '#' rest2 with
    | some (a, b) => (a, b)
    | none => (rest2, [])
  let (path, query) :=
    match splitOnFirst '?' rest3 with
    | some (a, b) => (a, b)
    | none => (rest3, [])
  ⟨scheme, netloc, path, query, fragment⟩

/-- sqc is the single-quote character that delimits the url and md5 fields in
a rattler match-spec string. -/
def sqc : Char := Char.ofNat 39

/-- pinfileEntry models the body of the loop of
`get_match_specs_from_conda_pinfile` (pinfiles.py): one non-header line of a
conda pinfile is turned into a rattler match-spec string
`name[url='...', md5='...']`. -/
def pinfileEntry (line : PyStr) : PyStr :=
  let parsed := urlparse (pyStrip line)
  let packageComponents := pyRsplitDash3 (pathName parsed.path)
  let name := joinDash (packageComponents.take (packageComponents.length - 2))
  let md5 := parsed.fragment
  let url := parsed.scheme ++ "://".data ++ parsed.netloc ++ parsed.path
  name ++ "[url=".data ++ [sqc] ++ url ++ [sqc] ++ ", md5=".data ++ [sqc] ++ md5 ++ [sqc] ++ "]".data

/-- pinfileGo is the line loop of `get_match_specs_from_conda_pinfile`:
while the header flag is set, lines are discarded and the flag is cleared by
a line stripping to `@EXPLICIT`; afterwards every line yields one entry. -/
def pinfileGo : Bool → List PyStr → List PyStr
  | _, [] => []
  | true, l :: rest =>
    if pyStrip l = "@EXPLICIT".data then pinfileGo false rest else pinfileGo true rest
  | false, l :: rest => pinfileEntry l :: pinfileGo false rest

/-- get_match_specs_from_conda_pinfile models the generator in pinfiles.py,
applied to the lines of the file as `for record in f` yields them (each line
keeps its trailing newline). -/
def get_match_specs_from_conda_pinfile (lines : List PyStr) : List PyStr :=
  pinfileGo true lines

/-- RepoDataRecord models `rattler.repo_data.RepoDataRecord` restricted to
the single field the plugin reads from it: the retrieval URL. -/
structure RepoDataRecord where
  url : PyStr
deriving DecidableEq, Repr

/-- pinWrittenLines models `Env.pin`: the lines of the lock file it writes,
as later read back line by line — the literal header `@EXPLICIT` plus one
line per record URL, in resolution order. -/
def pinWrittenLines (records : List RepoDataRecord) : List PyStr :=
  ("@EXPLICIT\n".data) :: records.map (fun r => r.url ++ ['\n'])

/-- PINFILE_SUFFIX models `f".{Platform.current()}.pin.txt"`; the detected
platform (for example `linux-64`) is passed in as a parameter. -/
def PINFILE_SUFFIX (platform : PyStr) : PyStr :=
  '.' :: platform ++ ".pin.txt".data

/-- withSuffix models `pathlib.Path(p).with_suffix(su)`: the final path
component's extension (the part from its last `.`, when that dot is neither
leading nor trailing) is replaced by `su`; when the component has no
extension, `su` is appended.  Degenerate paths whose final component is
empty (on which pathlib raises) are out of scope and handled componentwise. -/
def withSuffix (p su : PyStr) : PyStr :=
  let nameRev := p.reverse.takeWhile (fun c => c ≠ '/')
  let dir := p.take (p.length - nameRev.length)
  let extRev := nameRev.takeWhile (fun c => c ≠ '.')
  let stemRev :=
    if extRev.length + 2 ≤ nameRev.length && 1 ≤ extRev.length
    then nameRev.drop (extRev.length + 1) else nameRev
  dir ++ stemRev.reverse ++ su

/-- EnvSpec models the `EnvSpec` dataclass: the three optional identity
inputs plus the (derived or caller-supplied) lock-file reference.  Source
files are represented by their `path_or_uri` string. -/
structure EnvSpec where
  envfile : Option PyStr
  directory : Option PyStr
  name : Option PyStr
  pinfile : Option PyStr
deriving DecidableEq, Repr

/-- boolToNat is the value of a Python `bool` used as an integer in `sum`. -/
def boolToNat (b : Bool) : Nat := if b then 1 else 0

/-- EnvSpec.construct models dataclass construction followed by
`EnvSpec.__post_init__`: it fails (WorkflowError) unless exactly one of
envfile, name and directory is set, and when envfile is set it overwrites
pinfile with the path derived from the envfile path and the platform-tagged
suffix. -/
def EnvSpec.construct (platform : PyStr) (envfile directory name pinfile : Option PyStr) :
    Except PyStr EnvSpec :=
  if boolToNat envfile.isSome + boolToNat name.isSome + boolToNat directory.isSome ≠ 1 then
    .error "Exactly one of envfile, name, or directory must be set.".data
  else
    .ok { envfile := envfile, directory := directory, name := name,
          pinfile :=
            match envfile with
            | some p => some (withSuffix p (PINFILE_SUFFIX platform))
            | none => pinfile }

/-- EnvSpec.str models `EnvSpec.__str__`: the envfile path, else the
directory, else the name. -/
def EnvSpec.str (spec : EnvSpec) : PyStr :=
  match spec.envfile with
  | some p => p
  | none =>
    match spec.directory with
    | some d => d
    | none => spec.name.getD []

/-- lbrace is the opening curly brace character. -/
def lbrace : Char := Char.ofNat 123

/-- rbrace is the closing curly brace character. -/
def rbrace : Char := Char.ofNat 125

/-- JVal models the YAML document `yaml.load` produces for an environment
file as consumed by `json.dumps`: strings, lists and string-keyed mappings
(non-string scalars do not occur in the environment files in scope). -/
inductive JVal where
  | str : PyStr → JVal
  | arr : List JVal → JVal
  | obj : List (PyStr × JVal) → JVal

instance : Nonempty JVal := ⟨.str []⟩

instance : Inhabited JVal := ⟨.str []⟩

/-- hexDigit is the lowercase hex digit for `n < 16`, as `format(n, "x")`
produces it. -/
def hexDigit (n : Nat) : Char :=
  if n < 10 then Char.ofNat (48 + n) else Char.ofNat (87 + n)

/-- toHex4 is the four-digit lowercase hex rendering of `n < 65536`, as in a
JSON `\uXXXX` escape. -/
def toHex4 (n : Nat) : List Char :=
  [hexDigit (n / 4096 % 16), hexDigit (n / 256 % 16), hexDigit (n / 16 % 16),
   hexDigit (n % 16)]

/-- escChar models the escaping `json.dumps` (default `ensure_ascii=True`)
applies to one character of a string: named escapes for quote, backslash and
the common control characters, `\uXXXX` for other control and all non-ASCII
characters, with surrogate pairs beyond the basic multilingual plane. -/
def escChar (c : Char) : List Char :=
  if c = '"' then ['\\', '"']
  else if c = '\\' then ['\\', '\\']
  else if c = '\n' then ['\\', 'n']
  else if c = '\r' then ['\\', 'r']
  else if c = '\t' then ['\\', 't']
  else if c = '\x08' then ['\\', 'b']
  else if c = '\x0c' then ['\\', 'f']
  else if c.toNat < 32 ∨ (127 ≤ c.toNat ∧ c.toNat < 65536) then
    '\\' :: 'u' :: toHex4 c.toNat
  else if 65536 ≤ c.toNat then
    '\\' :: 'u' :: toHex4 (55296 + (c.toNat - 65536) / 1024) ++
      '\\' :: 'u' :: toHex4 (56320 + (c.toNat - 65536) % 1024)
  else [c]

/-- escList applies `escChar` across a whole string. -/
def escList (s : PyStr) : List Char := s.flatMap escChar

/-- encStr models `json.dumps` on a single string: the escaped body wrapped
in double quotes. -/
def encStr (s : PyStr) : PyStr := '"' :: escList s ++ ['"']

/-- strLt models Python string comparison `<`: lexicographic on code
points. -/
def strLt : PyStr → PyStr → Bool
  | [], [] => false
  | [], _ :: _ => true
  | _ :: _, [] => false
  | a :: as, b :: bs =>
    if a.toNat < b.toNat then true
    else if b.toNat < a.toNat then false
    else strLt as bs

/-- strLe is the reflexive closure of `strLt`, i.e. Python `<=`. -/
def strLe (a b : PyStr) : Bool := !(strLt b a)

/-- kvInsert inserts a key-value pair into a key-sorted list, keeping it
sorted; this is the insertion step of a stable sort by key, modelling how
`sorted(items)` orders mapping items in `json.dumps(..., sort_keys=True)`. -/
def kvInsert (x : PyStr × JVal) : List (PyStr × JVal) → List (PyStr × JVal)
  | [] => [x]
  | y :: ys => if strLe x.1 y.1 then x :: y :: ys else y :: kvInsert x ys

/-- sortKvs sorts mapping items by key (stable insertion sort). -/
def sortKvs : List (PyStr × JVal) → List (PyStr × JVal)
  | [] => []
  | x :: xs => kvInsert x (sortKvs xs)

mutual

/-- canon recursively sorts every mapping of a document by key; serializing
the canonical form in order is exactly serializing the original with
`sort_keys=True`. -/
def canon : JVal → JVal
  | .str s => .str s
  | .arr xs => .arr (canonList xs)
  | .obj kvs => .obj (sortKvs (canonKvs kvs))

/-- canonList maps `canon` over a list of documents. -/
def canonList : List JVal → List JVal
  | [] => []
  | x :: xs => canon x :: canonList xs

/-- canonKvs maps `canon` over the values of mapping items. -/
def canonKvs : List (PyStr × JVal) → List (PyStr × JVal)
  | [] => []
  | kv :: kvs => (kv.1, canon kv.2) :: canonKvs kvs

end

mutual

/-- dumpsRaw serializes a document in the order given, with the default
`json.dumps` separators `", "` and `": "`. -/
def dumpsRaw : JVal → PyStr
  | .str s => encStr s
  | .arr xs => '[' :: dumpsArr xs ++ [']']
  | .obj kvs => lbrace :: dumpsObj kvs ++ [rbrace]

/-- dumpsArr serializes list elements joined by `", "`. -/
def dumpsArr : List JVal → PyStr
  | [] => []
  | [x] => dumpsRaw x
  | x :: y :: xs => dumpsRaw x ++ ',' :: ' ' :: dumpsArr (y :: xs)

/-- dumpsObj serializes mapping items `key: value` joined by `", "`. -/
def dumpsObj : List (PyStr × JVal) → PyStr
  | [] => []
  | [kv] => encStr kv.1 ++ ':' :: ' ' :: dumpsRaw kv.2
  | kv :: kv2 :: kvs => encStr kv.1 ++ ':' :: ' ' :: dumpsRaw kv.2 ++ ',' :: ' ' :: dumpsObj (kv2 :: kvs)

end

/-- dumps models `json.dumps(value, sort_keys=True)`: every mapping is
serialized with its items in key order, which equals serializing the
recursively key-sorted document in order. -/
def dumps (v : JVal) : PyStr := dumpsRaw (canon v)

/-- record_hash models `Env.record_hash`: the bytes fed to the hash
accumulator are the sorted-keys JSON serialization of the envfile content
when an envfile is set, else the directory path string, else the
environment name (the source asserts that name is set in that case). -/
def record_hash (spec : EnvSpec) (envfileContent : JVal) : PyStr :=
  match spec.envfile with
  | some _ => dumps envfileContent
  | none =>
    match spec.directory with
    | some d => d
    | none => spec.name.getD []

mutual

/-- JEquiv relates two documents that are equal as parsed structures up to
reordering of mapping keys: strings must match, lists must match pointwise
in order, and mappings must match up to a permutation of their items. -/
def JEquiv : JVal → JVal → Prop
  | .str s, .str t => s = t
  | .arr xs, .arr ys => JEquivList xs ys
  | .obj kvs, .obj kvs2 => ∃ mid, JEquivKvs kvs mid ∧ mid.Perm kvs2
  | _, _ => False

/-- JEquivList is the pointwise extension of `JEquiv` to lists. -/
def JEquivList : List JVal → List JVal → Prop
  | [], [] => True
  | x :: xs, y :: ys => JEquiv x y ∧ JEquivList xs ys
  | _, _ => False

/-- JEquivKvs is the pointwise extension of `JEquiv` to mapping items with
equal keys. -/
def JEquivKvs : List (PyStr × JVal) → List (PyStr × JVal) → Prop
  | [], [] => True
  | kv :: kvs, kv2 :: kvs2 => kv.1 = kv2.1 ∧ JEquiv kv.2 kv2.2 ∧ JEquivKvs kvs kvs2
  | _, _ => False

end

/-- distinctKeys checks that the keys of a list of mapping items are
pairwise distinct. -/
def distinctKeys : List (PyStr × JVal) → Bool
  | [] => true
  | kv :: kvs => kvs.all (fun kv2 => kv2.1 ≠ kv.1) && distinctKeys kvs

mutual

/-- wfKeys checks that every mapping of a document has pairwise distinct
keys, as holds for any document produced by a YAML or JSON parser. -/
def wfKeys : JVal → Bool
  | .str _ => true
  | .arr xs => wfKeysList xs
  | .obj kvs => distinctKeys kvs && wfKeysKvs kvs

/-- wfKeysList checks `wfKeys` across a list of documents. -/
def wfKeysList : List JVal → Bool
  | [] => true
  | x :: xs => wfKeys x && wfKeysList xs

/-- wfKeysKvs checks `wfKeys` across the values of mapping items. -/
def wfKeysKvs : List (PyStr × JVal) → Bool
  | [] => true
  | kv :: kvs => wfKeys kv.2 && wfKeysKvs kvs

end

/-- ResolutionCtx is the environment an `Env` resolves in: the parsed
envfile pieces `_package_records` reads, the on-disk state of the two
candidate lock files (`spec.pinfile.cached` and the deployment-local
`self.pinfile`, each `some lines` exactly when the file exists), and the two
external services as oracles: the content query service
(`Gateway().query`, already flattened over channels) and the solving
service (`rattler.solve`). -/
structure ResolutionCtx where
  channels : List PyStr
  condaSpecs : List PyStr
  virtualPackages : List PyStr
  platform : PyStr
  cachedPinfile : Option (List PyStr)
  localPinfile : Option (List PyStr)
  gatewayQuery : List PyStr → PyStr → List PyStr → List RepoDataRecord
  solve : List PyStr → List PyStr → List PyStr → List RepoDataRecord

/-- ResolveOutcome is the observable result of one `_package_records` call:
the returned records, the per-instance cache field afterwards, and how many
times each service was invoked and the lock file read during the call. -/
structure ResolveOutcome where
  records : List RepoDataRecord
  cache : Option (List RepoDataRecord)
  solveCalls : Nat
  gatewayCalls : Nat
  pinfileReads : Nat
deriving DecidableEq, Repr

/-- packageRecords models `Env._package_records` acting on the memo field
`_package_records_cache`: a cached result is returned as is; otherwise the
cached lock file is used when it exists, falling back to the deployment-local
one, and when the chosen file exists its decoded match specs are sent to the
content query service; only when no lock file exists is the solving service
invoked.  The result is stored in the cache field in either branch. -/
def packageRecords (ctx : ResolutionCtx) (cache : Option (List RepoDataRecord)) :
    ResolveOutcome :=
  match cache with
  | some records => ⟨records, some records, 0, 0, 0⟩
  | none =>
    let pinfile :=
      match ctx.cachedPinfile with
      | some lines => some lines
      | none => ctx.localPinfile
    match pinfile with
    | some lines =>
      let records :=
        ctx.gatewayQuery ctx.channels ctx.platform
          (get_match_specs_from_conda_pinfile lines)
      ⟨records, some records, 0, 1, 1⟩
    | none =>
      let records := ctx.solve ctx.channels ctx.condaSpecs ctx.virtualPackages
      ⟨records, some records, 1, 0, 0⟩

/-- record_to_asset_name models the module-level helper:
`record.url.split("/")[-1]`. -/
def record_to_asset_name (r : RepoDataRecord) : PyStr :=
  ((splitOnChar '/' r.url).getLast?).getD []

/-- partFileName is the hidden temporary sibling name `.<name>.part` used
while downloading an artifact. -/
def partFileName (pkgName : PyStr) : PyStr :=
  '.' :: pkgName ++ ".part".data

/-- CacheDirState is the observable state touched by `Env.cache_assets`:
the file names present in the per-environment cache directory, and the log
of URLs fetched over the network (`http_client.get`). -/
structure CacheDirState where
  files : List PyStr
  fetched : List PyStr
deriving DecidableEq, Repr

/-- cacheOneRecord models one iteration of the loop in `Env.cache_assets`:
the HTTP GET is issued unconditionally; only when the final name is absent
is the body written to the `.<name>.part` sibling, which is then atomically
renamed over the final name (`os.replace`), so afterwards the final name is
present and its `.part` sibling is not. -/
def cacheOneRecord (st : CacheDirState) (r : RepoDataRecord) : CacheDirState :=
  let pkgName := record_to_asset_name r
  let st1 : CacheDirState := { st with fetched := st.fetched ++ [r.url] }
  if pkgName ∈ st1.files then st1
  else { st1 with
         files := st1.files.filter (fun f => f ≠ partFileName pkgName) ++ [pkgName] }

/-- cache_assets models `Env.cache_assets` over a record list. -/
def cache_assets (st : CacheDirState) (records : List RepoDataRecord) : CacheDirState :=
  records.foldl cacheOneRecord st

/-- PyError distinguishes the exceptions the dependency accessors can
raise: a `KeyError` from `spec["pip"]`, the `WorkflowError` for a non-list
pip block, and the `AttributeError` from calling `.replace` on a non-string
entry. -/
inductive PyError where
  | keyError
  | workflowError (msg : PyStr)
  | attributeError
deriving DecidableEq, Repr

/-- isJObj tests whether a dependency entry is a mapping
(`isinstance(spec, dict)`). -/
def isJObj : JVal → Bool
  | .obj _ => true
  | _ => false

/-- lookupJ models Python dict lookup on a parsed (unique-key) mapping. -/
def lookupJ (kvs : List (PyStr × JVal)) (k : PyStr) : Option JVal :=
  match kvs with
  | [] => none
  | kv :: rest => if kv.1 = k then some kv.2 else lookupJ rest k

/-- dependenciesOf models `self.envfile_content["dependencies"]` for a
well-formed envfile content whose top level is a mapping with a
`dependencies` list (the source raises otherwise; such contents are outside
the deployment scenarios modelled here). -/
def dependenciesOf (content : JVal) : List JVal :=
  match content with
  | .obj kvs =>
    match lookupJ kvs "dependencies".data with
    | some (.arr xs) => xs
    | _ => []
  | _ => []

/-- conda_specs models `Env.conda_specs`: the dependency entries that are
not mappings. -/
def conda_specs (content : JVal) : List JVal :=
  (dependenciesOf content).filter (fun d => !isJObj d)

/-- pypi_specs models `Env.pypi_specs`: the `"pip"` value of the first
mapping entry among the dependencies — a `KeyError` when that mapping has no
`"pip"` key, a `WorkflowError` when the value is not a list, and the empty
list when no mapping entry exists. -/
def pypi_specs (content : JVal) : Except PyError (List JVal) :=
  match (dependenciesOf content).find? isJObj with
  | some (.obj kvs) =>
    match lookupJ kvs "pip".data with
    | some (.arr xs) => .ok xs
    | some _ => .error (.workflowError "pypi/pip dependencies must be a list".data)
    | none => .error .keyError
  | _ => .ok []

/-- asPyStrs extracts the strings of a dependency list, failing like
`spec.replace(" ", "")` does on a non-string entry. -/
def asPyStrs : List JVal → Except PyError (List PyStr)
  | [] => .ok []
  | .str s :: rest => (asPyStrs rest).map (fun l => s :: l)
  | _ :: _ => .error .attributeError

/-- pyRemoveSpaces models `spec.replace(" ", "")`. -/
def pyRemoveSpaces (s : PyStr) : PyStr := s.filter (fun c => c ≠ ' ')

/-- DeployCall is one external action `Env.deploy` can take: the rattler
`install` of the resolved records into the deployment path, or the `uv pip
install` subprocess for the secondary (pypi) packages. -/
inductive DeployCall where
  | install (targetPath : PyStr)
  | uvPipInstall (args : List PyStr)
deriving DecidableEq, Repr

/-- DeployOutcome is the observable result of `Env.deploy`: the external
calls issued in order, the error raised if any, and whether the call was
delegated to a parent environment (`self.within`). -/
structure DeployOutcome where
  calls : List DeployCall
  error : Option PyStr
  delegated : Bool
deriving DecidableEq, Repr

/-- DeployCtx is the state `Env.deploy` reads: the spec, the parsed envfile
content, the deployment path, whether `<deployment_path>/bin/python` exists
once the primary install has run, and whether a parent environment is set. -/
structure DeployCtx where
  spec : EnvSpec
  content : JVal
  deploymentPath : PyStr
  pythonPathExists : Bool
  withinSet : Bool

/-- pythonInterpreterPath is `self.deployment_path / "bin" / "python"`. -/
def pythonInterpreterPath (ctx : DeployCtx) : PyStr :=
  ctx.deploymentPath ++ "/bin/python".data

/-- missingPythonMessage is the message of the `WorkflowError` raised by
`raise_python_error` inside `Env.deploy` when pypi packages are declared
but no interpreter is found under the deployment path. -/
def missingPythonMessage (ctx : DeployCtx) : PyStr :=
  "No working python found in the given environment ".data ++ ctx.spec.str ++
    ". Unable to install additional pypi packages. ".data ++
    "Please add python as a conda package to the environment".data ++ ". ".data ++
    "No python found under ".data ++ ctx.deploymentPath ++
    ". If your environment contains pypi packages, please add python to the non-pypi packages list.".data

/-- uvPipArgs is the argument list of the secondary-installer subprocess. -/
def uvPipArgs (ctx : DeployCtx) (pypiSpecs : List PyStr) : List PyStr :=
  ["uv".data, "pip".data, "install".data, "--prefix".data, ctx.deploymentPath,
   "--python".data, pythonInterpreterPath ctx] ++ pypiSpecs

/-- pyErrorMessage renders the exception a dependency accessor raised. -/
def pyErrorMessage : PyError → PyStr
  | .keyError => "KeyError: pip".data
  | .workflowError msg => msg
  | .attributeError => "AttributeError: replace".data

/-- deploy models `Env.deploy`: delegation to a parent environment when one
is set; otherwise the primary install of the resolved records, then — only
when the declarative file declares pypi entries — the interpreter check
under the deployment path, failing with the missing-python error before any
secondary-installer subprocess when the interpreter is absent, and invoking
`uv pip install` with the whitespace-stripped pypi specs otherwise. -/
def deploy (ctx : DeployCtx) : DeployOutcome :=
  if ctx.withinSet then ⟨[], none, true⟩
  else
    let installCalls := [DeployCall.install ctx.deploymentPath]
    match (pypi_specs ctx.content).bind asPyStrs with
    | .error e => ⟨installCalls, some (pyErrorMessage e), false⟩
    | .ok rawSpecs =>
      let pypiSpecs := rawSpecs.map pyRemoveSpaces
      if pypiSpecs.isEmpty then ⟨installCalls, none, false⟩
      else if !ctx.pythonPathExists then
        ⟨installCalls, some (missingPythonMessage ctx), false⟩
      else
        ⟨installCalls ++ [DeployCall.uvPipInstall (uvPipArgs ctx pypiSpecs)], none, false⟩

/-- exactlyOneIdentity is the specification's condition on the three
identity inputs: exactly one of envfile, directory and name is set. -/
def exactlyOneIdentity (envfile directory name : Option PyStr) : Bool :=
  (envfile.isSome && !directory.isSome && !name.isSome) ||
  (!envfile.isSome && directory.isSome && !name.isSome) ||
  (!envfile.isSome && !directory.isSome && name.isSome)

/-- C1: when the derived lock-file reference points to a file that exists on
disk, `_package_records` obtains its records from the content query service
applied to the decoded lock file, and the solving service is never invoked —
whatever the declarative file's constraint list is. -/
theorem lockfile_precedence_of_cached_pinfile (ctx : ResolutionCtx) (lines : List PyStr)
    (h : ctx.cachedPinfile = some lines) :
    (packageRecords ctx none).records =
      ctx.gatewayQuery ctx.channels ctx.platform
        (get_match_specs_from_conda_pinfile lines) ∧
    (packageRecords ctx none).solveCalls = 0 := by
  simp [packageRecords, h]

/-- ctxC1 is a concrete resolution context with an existing cached lock
file, a distinct solver answer, and a content query service echoing its
specs. -/
def ctxC1 : ResolutionCtx :=
  { channels := ["conda-forge".data]
    condaSpecs := ["python=3.11".data]
    virtualPackages := []
    platform := "linux-64".data
    cachedPinfile := some ["@EXPLICIT\n".data, "https://h/p/a-b-1-0.conda\n".data]
    localPinfile := none
    gatewayQuery := fun _ _ specs => specs.map (fun s => ⟨s⟩)
    solve := fun _ _ _ => [⟨"solver-answer".data⟩] }

/-- Witness for C1 at the concrete context `ctxC1`. -/
theorem lockfile_precedence_of_cached_pinfile_witness :
    (packageRecords ctxC1 none).records =
      ctxC1.gatewayQuery ctxC1.channels ctxC1.platform
        (get_match_specs_from_conda_pinfile
          ["@EXPLICIT\n".data, "https://h/p/a-b-1-0.conda\n".data]) ∧
    (packageRecords ctxC1 none).solveCalls = 0 :=
  lockfile_precedence_of_cached_pinfile ctxC1 _ rfl

/-- C2: a second `_package_records` call after a first successful one
returns the same record list from the per-instance cache field, invoking
neither the solving service nor the content query service and reading no
lock file, and leaves the cache field unchanged. -/
theorem package_records_memoized (ctx : ResolutionCtx) :
    (packageRecords ctx (packageRecords ctx none).cache).records =
      (packageRecords ctx none).records ∧
    (packageRecords ctx (packageRecords ctx none).cache).solveCalls = 0 ∧
    (packageRecords ctx (packageRecords ctx none).cache).gatewayCalls = 0 ∧
    (packageRecords ctx (packageRecords ctx none).cache).pinfileReads = 0 ∧
    (packageRecords ctx (packageRecords ctx none).cache).cache =
      (packageRecords ctx none).cache := by
  cases h1 : ctx.cachedPinfile with
  | some lines => simp [packageRecords, h1]
  | none =>
    cases h2 : ctx.localPinfile with
    | some lines => simp [packageRecords, h1, h2]
    | none => simp [packageRecords, h1, h2]

/-- C8: construction of an `EnvSpec` succeeds exactly when one single
identity input among envfile, name and directory is set, and fails with the
configuration error otherwise. -/
theorem envspec_construct_exactly_one (platform : PyStr)
    (envfile directory name pinfile : Option PyStr) :
    ((∃ spec, EnvSpec.construct platform envfile directory name pinfile = .ok spec) ↔
      exactlyOneIdentity envfile directory name = true) ∧
    ((EnvSpec.construct platform envfile directory name pinfile =
        .error "Exactly one of envfile, name, or directory must be set.".data) ↔
      exactlyOneIdentity envfile directory name = false) := by
  cases envfile <;> cases directory <;> cases name <;>
    simp [EnvSpec.construct, boolToNat, exactlyOneIdentity]

/-- specC9 is the spec produced when a name identity is passed together
with an explicit pinfile argument. -/
def specC9 : EnvSpec :=
  { envfile := none, directory := none, name := some "foo".data,
    pinfile := some "stale.pin.txt".data }

/-- Counterexample to C9 as stated: an `EnvSpec` constructed with the name
identity and a caller-supplied pinfile succeeds, and its lock-file
reference is non-null while its declarative-file reference is null, so
"pinfile is non-null iff envfile is non-null" fails. -/
theorem envspec_pinfile_iff_counterexample :
    EnvSpec.construct "linux-64".data none none (some "foo".data)
        (some "stale.pin.txt".data) = .ok specC9 ∧
    specC9.pinfile.isSome = true ∧ specC9.envfile.isSome = false :=
  ⟨rfl, rfl, rfl⟩

/-- C9 amended: in every successfully constructed `EnvSpec`, the pinfile
field is the derived platform-tagged path whenever envfile is set —
regardless of the pinfile argument — and is the caller-supplied pinfile
argument otherwise; hence it is non-null iff envfile is non-null or a
pinfile argument was passed. -/
theorem envspec_pinfile_derivation (platform : PyStr)
    (envfile directory name pinfile : Option PyStr) (spec : EnvSpec)
    (h : EnvSpec.construct platform envfile directory name pinfile = .ok spec) :
    spec.pinfile = (match envfile with
      | some p => some (withSuffix p (PINFILE_SUFFIX platform))
      | none => pinfile) ∧
    spec.pinfile.isSome = (envfile.isSome || pinfile.isSome) ∧
    spec.envfile = envfile := by
  unfold EnvSpec.construct at h
  split at h
  · exact absurd h (by simp)
  · rw [Except.ok.injEq] at h
    subst h
    cases envfile <;> simp

/-- Witness for the amended C9 at a concrete envfile construction. -/
theorem envspec_pinfile_derivation_witness :
    (EnvSpec.construct "linux-64".data (some "env.yaml".data) none none none =
      .ok { envfile := some "env.yaml".data, directory := none, name := none,
            pinfile := some "env.linux-64.pin.txt".data }) ∧
    ((({ envfile := some "env.yaml".data, directory := none, name := none,
         pinfile := some "env.linux-64.pin.txt".data } : EnvSpec).pinfile =
      (match (some "env.yaml".data : Option PyStr) with
        | some p => some (withSuffix p (PINFILE_SUFFIX "linux-64".data))
        | none => (none : Option PyStr))) ∧
     ({ envfile := some "env.yaml".data, directory := none, name := none,
        pinfile := some "env.linux-64.pin.txt".data } : EnvSpec).pinfile.isSome =
       ((some "env.yaml".data : Option PyStr).isSome || (none : Option PyStr).isSome) ∧
     ({ envfile := some "env.yaml".data, directory := none, name := none,
        pinfile := some "env.linux-64.pin.txt".data } : EnvSpec).envfile =
       some "env.yaml".data) :=
  ⟨rfl,
   envspec_pinfile_derivation "linux-64".data (some "env.yaml".data) none none none _
     rfl⟩

set_option maxRecDepth 8192 in
/-- C10: when the declarative file declares pip entries and the interpreter
`<deployment path>/bin/python` does not exist after the primary install,
`deploy` fails with the missing-python error — whose message names the
deployment path under which the interpreter was expected and instructs that
python be added as a conda package — and no secondary-installer subprocess
is ever invoked. -/
theorem deploy_missing_interpreter (ctx : DeployCtx) (rawSpecs : List PyStr)
    (hwithin : ctx.withinSet = false)
    (hspecs : (pypi_specs ctx.content).bind asPyStrs = .ok rawSpecs)
    (hne : rawSpecs.isEmpty = false)
    (hpy : ctx.pythonPathExists = false) :
    deploy ctx =
      ⟨[DeployCall.install ctx.deploymentPath], some (missingPythonMessage ctx), false⟩ ∧
    (∀ args, DeployCall.uvPipInstall args ∉ (deploy ctx).calls) ∧
    (∃ a b, missingPythonMessage ctx =
      a ++ "No python found under ".data ++ ctx.deploymentPath ++ b) ∧
    (∃ a b, missingPythonMessage ctx =
      a ++ "Please add python as a conda package to the environment".data ++ b) := by
  have hmap : (rawSpecs.map pyRemoveSpaces).isEmpty = false := by
    cases rawSpecs with
    | nil => simp at hne
    | cons x xs => simp [List.map]
  have hdeploy : deploy ctx =
      ⟨[DeployCall.install ctx.deploymentPath], some (missingPythonMessage ctx), false⟩ := by
    simp [deploy, hwithin, hspecs, hmap, hpy]
  refine ⟨hdeploy, ?_, ?_, ?_⟩
  · intro args
    rw [hdeploy]
    simp
  · refine ⟨"No working python found in the given environment ".data ++ ctx.spec.str ++
      ". Unable to install additional pypi packages. ".data ++
      "Please add python as a conda package to the environment".data ++ ". ".data,
      ". If your environment contains pypi packages, please add python to the non-pypi packages list.".data, ?_⟩
    simp only [missingPythonMessage, List.append_assoc]
  · refine ⟨"No working python found in the given environment ".data ++ ctx.spec.str ++
      ". Unable to install additional pypi packages. ".data,
      ". ".data ++ "No python found under ".data ++ ctx.deploymentPath ++
      ". If your environment contains pypi packages, please add python to the non-pypi packages list.".data, ?_⟩
    simp only [missingPythonMessage, List.append_assoc]

/-- ctxC10 is a concrete deployment context declaring a pip dependency in
its envfile content, with no interpreter present after install. -/
def ctxC10 : DeployCtx :=
  { spec := { envfile := some "env.yaml".data, directory := none, name := none,
              pinfile := some "env.linux-64.pin.txt".data }
    content := .obj [("channels".data, .arr [.str "conda-forge".data]),
                     ("dependencies".data,
                      .arr [.obj [("pip".data, .arr [.str "humanfriendly".data])]])]
    deploymentPath := "/tmp/prefix".data
    pythonPathExists := false
    withinSet := false }

/-- Witness for C10 at the concrete context `ctxC10`. -/
theorem deploy_missing_interpreter_witness :
    (deploy ctxC10 =
      ⟨[DeployCall.install ctxC10.deploymentPath],
        some (missingPythonMessage ctxC10), false⟩ ∧
    (∀ args, DeployCall.uvPipInstall args ∉ (deploy ctxC10).calls) ∧
    (∃ a b, missingPythonMessage ctxC10 =
      a ++ "No python found under ".data ++ ctxC10.deploymentPath ++ b) ∧
    (∃ a b, missingPythonMessage ctxC10 =
      a ++ "Please add python as a conda package to the environment".data ++ b)) :=
  deploy_missing_interpreter ctxC10 ["humanfriendly".data] rfl rfl rfl rfl

/-- recC4 is a concrete record whose artifact gets cached. -/
def recC4 : RepoDataRecord := ⟨"https://h/a-1.0-0.tar.bz2".data⟩

/-- Counterexample to C4 as stated: after a first `cache_assets` call the
artifact file exists under its final name, yet a second call on the same
record issues another network fetch — the HTTP GET precedes the existence
check, so an already-present artifact is not skipped and two calls perform
two fetches, not at most one. -/
theorem cache_assets_refetch_counterexample :
    record_to_asset_name recC4 ∈ (cache_assets ⟨[], []⟩ [recC4]).files ∧
    (cache_assets (cache_assets ⟨[], []⟩ [recC4]) [recC4]).fetched =
      [recC4.url, recC4.url] := by
  decide

/-- cacheOneRecord_fetched: each loop iteration logs exactly one fetch. -/
theorem cacheOneRecord_fetched (st : CacheDirState) (r : RepoDataRecord) :
    (cacheOneRecord st r).fetched = st.fetched ++ [r.url] := by
  simp only [cacheOneRecord]
  split <;> rfl

/-- cacheOneRecord_mem_preserved: files whose name does not begin with a
dot survive an iteration (only `.‹name›.part` siblings are removed). -/
theorem cacheOneRecord_mem_preserved (st : CacheDirState) (r : RepoDataRecord)
    (f : PyStr) (hf : f ∈ st.files) (hdot : f.headD ' ' ≠ '.') :
    f ∈ (cacheOneRecord st r).files := by
  simp only [cacheOneRecord]
  split
  · exact hf
  · refine List.mem_append_left _ (List.mem_filter.mpr ⟨hf, ?_⟩)
    have : f ≠ partFileName (record_to_asset_name r) := by
      intro heq
      rw [heq] at hdot
      exact hdot rfl
    simpa using this

/-- cacheOneRecord_mem_self: after its iteration, a record's artifact is
present under its final name. -/
theorem cacheOneRecord_mem_self (st : CacheDirState) (r : RepoDataRecord) :
    record_to_asset_name r ∈ (cacheOneRecord st r).files := by
  simp only [cacheOneRecord]
  split
  · assumption
  · exact List.mem_append_right _ (List.mem_singleton.mpr rfl)

/-- cacheOneRecord_not_added: an absent file other than the iteration's own
artifact name stays absent. -/
theorem cacheOneRecord_not_added (st : CacheDirState) (r : RepoDataRecord)
    (f : PyStr) (hf : f ∉ st.files) (hne : f ≠ record_to_asset_name r) :
    f ∉ (cacheOneRecord st r).files := by
  simp only [cacheOneRecord]
  split
  · exact hf
  · intro hmem
    rcases List.mem_append.mp hmem with h | h
    · exact hf (List.mem_filter.mp h).1
    · exact hne (List.mem_singleton.mp h)

/-- cache_assets_mem_preserved: a present file whose name does not begin
with a dot is still present after a whole `cache_assets` run. -/
theorem cache_assets_mem_preserved (records : List RepoDataRecord)
    (st : CacheDirState) (f : PyStr) (hf : f ∈ st.files) (hdot : f.headD ' ' ≠ '.') :
    f ∈ (cache_assets st records).files := by
  induction records generalizing st with
  | nil => exact hf
  | cons r rs ih => exact ih _ (cacheOneRecord_mem_preserved st r f hf hdot)

/-- cache_assets_not_added: an absent file that is no record's artifact name
is still absent after a whole `cache_assets` run. -/
theorem cache_assets_not_added (records : List RepoDataRecord)
    (st : CacheDirState) (f : PyStr) (hf : f ∉ st.files)
    (hne : ∀ r ∈ records, f ≠ record_to_asset_name r) :
    f ∉ (cache_assets st records).files := by
  induction records generalizing st with
  | nil => exact hf
  | cons r rs ih =>
    exact ih _ (cacheOneRecord_not_added st r f hf (hne r (List.mem_cons_self r rs)))
      (fun x hx => hne x (List.mem_cons_of_mem r hx))

/-- C4 amended: `cache_assets` issues one network fetch per record on every
call — an already-present artifact only skips the write and rename, not the
HTTP GET — and after a call every record's artifact exists under its final
name while no `.<name>.part` sibling remains (provided none was present
before the call); artifact names here do not begin with a dot, as holds for
any URL whose final segment is a package file name. -/
theorem cache_assets_fetches_and_files (st : CacheDirState)
    (records : List RepoDataRecord)
    (hdot : ∀ r ∈ records, (record_to_asset_name r).headD ' ' ≠ '.') :
    (cache_assets st records).fetched = st.fetched ++ records.map RepoDataRecord.url ∧
    (∀ r ∈ records, record_to_asset_name r ∈ (cache_assets st records).files) ∧
    (∀ r ∈ records, partFileName (record_to_asset_name r) ∉ st.files →
      partFileName (record_to_asset_name r) ∉ (cache_assets st records).files) := by
  have hpartdot : ∀ x : RepoDataRecord,
      (partFileName (record_to_asset_name x)).headD ' ' = '.' := fun x => rfl
  induction records generalizing st with
  | nil => simp [cache_assets]
  | cons r rs ih =>
    have hstep : cache_assets st (r :: rs) = cache_assets (cacheOneRecord st r) rs := rfl
    have hdr : (record_to_asset_name r).headD ' ' ≠ '.' := hdot r (List.mem_cons_self r rs)
    have hdots : ∀ x ∈ rs, (record_to_asset_name x).headD ' ' ≠ '.' :=
      fun x hx => hdot x (List.mem_cons_of_mem r hx)
    obtain ⟨ihf, ihm, ihp⟩ := ih (cacheOneRecord st r) hdots
    refine ⟨?_, ?_, ?_⟩
    · rw [hstep, ihf, cacheOneRecord_fetched]
      simp
    · intro x hx
      rcases List.mem_cons.mp hx with hx1 | hx2
      · subst hx1
        rw [hstep]
        exact cache_assets_mem_preserved rs _ _ (cacheOneRecord_mem_self st x) hdr
      · exact ihm x hx2
    · intro x hx habs
      have hxpartne : ∀ y : RepoDataRecord, (record_to_asset_name y).headD ' ' ≠ '.' →
          partFileName (record_to_asset_name x) ≠ record_to_asset_name y := by
        intro y hy heq
        exact hy (heq ▸ hpartdot x)
      rcases List.mem_cons.mp hx with hx1 | hx2
      · subst hx1
        rw [hstep]
        exact cache_assets_not_added rs _ _
          (cacheOneRecord_not_added st x _ habs (hxpartne x hdr))
          (fun y hy => hxpartne y (hdots y hy))
      · exact ihp x hx2
          (cacheOneRecord_not_added st r _ habs (hxpartne r hdr))

/-- stC4 is a concrete cache state for the C4 witness. -/
def stC4 : CacheDirState := ⟨["b-2.0-1.conda".data], []⟩

/-- Witness for the amended C4 at a concrete state and record list. -/
theorem cache_assets_fetches_and_files_witness :
    (cache_assets stC4 [recC4]).fetched = stC4.fetched ++ [recC4].map RepoDataRecord.url ∧
    (∀ r ∈ [recC4], record_to_asset_name r ∈ (cache_assets stC4 [recC4]).files) ∧
    (∀ r ∈ [recC4], partFileName (record_to_asset_name r) ∉ stC4.files →
      partFileName (record_to_asset_name r) ∉ (cache_assets stC4 [recC4]).files) :=
  cache_assets_fetches_and_files stC4 [recC4] (by decide)

/-- pinfileGo_false_eq_map: after the header every line yields exactly one
entry, in order. -/
theorem pinfileGo_false_eq_map (lines : List PyStr) :
    pinfileGo false lines = lines.map pinfileEntry := by
  induction lines with
  | nil => rfl
  | cons l ls ih => simp [pinfileGo, ih]

/-- pinfileGo_skip_preamble: lines that do not strip to the header marker
are discarded while the header flag is set. -/
theorem pinfileGo_skip_preamble (pre rest : List PyStr)
    (hpre : ∀ l ∈ pre, pyStrip l ≠ "@EXPLICIT".data) :
    pinfileGo true (pre ++ rest) = pinfileGo true rest := by
  induction pre with
  | nil => rfl
  | cons l ls ih =>
    have h1 : pyStrip l ≠ "@EXPLICIT".data := hpre l (List.mem_cons_self l ls)
    have h2 : ∀ x ∈ ls, pyStrip x ≠ "@EXPLICIT".data :=
      fun x hx => hpre x (List.mem_cons_of_mem l hx)
    simp [pinfileGo, h1, ih h2]

/-- Counterexample to C7 as stated: a blank line after the header produces
an entry — the degenerate match spec with empty name, URL `://` and empty
checksum — rather than no entry, so the decoded list for a header plus one
blank line has one element, not zero. -/
theorem pinfile_blank_line_counterexample :
    (get_match_specs_from_conda_pinfile ["@EXPLICIT\n".data, "\n".data]).length = 1 ∧
    get_match_specs_from_conda_pinfile ["@EXPLICIT\n".data, "\n".data] =
      ["[url=".data ++ [sqc] ++ "://".data ++ [sqc] ++ ", md5=".data ++ [sqc] ++ [sqc] ++
        "]".data] := by
  decide

/-- C7 amended: decoding discards every line before the first line that
strips to `@EXPLICIT` and yields exactly one entry per line after it —
including blank lines, which yield degenerate entries. -/
theorem pinfile_decode_preamble_and_lines (pre post : List PyStr) (header : PyStr)
    (hpre : ∀ l ∈ pre, pyStrip l ≠ "@EXPLICIT".data)
    (hheader : pyStrip header = "@EXPLICIT".data) :
    get_match_specs_from_conda_pinfile (pre ++ header :: post) =
      post.map pinfileEntry := by
  unfold get_match_specs_from_conda_pinfile
  rw [pinfileGo_skip_preamble pre (header :: post) hpre]
  simp [pinfileGo, hheader, pinfileGo_false_eq_map]

/-- Witness for the amended C7 at a concrete preamble, header and body. -/
theorem pinfile_decode_preamble_and_lines_witness :
    get_match_specs_from_conda_pinfile
        (["# preamble\n".data] ++ "@EXPLICIT\n".data :: ["\n".data]) =
      ["\n".data].map pinfileEntry :=
  pinfile_decode_preamble_and_lines ["# preamble\n".data] ["\n".data] "@EXPLICIT\n".data
    (by decide) (by decide)

/-- short_segment_name_empty: when the final path segment has fewer than
three dash-delimited components, the decoded package name is empty. -/
theorem short_segment_name_empty (s : PyStr) (h : (splitOnChar '-' s).length < 3) :
    joinDash ((pyRsplitDash3 s).take ((pyRsplitDash3 s).length - 2)) = [] := by
  simp only [pyRsplitDash3]
  rw [if_pos (by omega)]
  rw [Nat.sub_eq_zero_of_le (by omega), List.take_zero]
  rfl

/-- Counterexample to C6 as stated: the decoder raises nothing (no
`LockFileFormatError` exists in the source); a line whose final segment
`foo-1.0.tar.bz2` has only two dash-delimited components decodes to an
entry with an empty package name instead of failing. -/
theorem pinfile_short_segment_counterexample :
    get_match_specs_from_conda_pinfile
        ["@EXPLICIT\n".data, "https://h/p/foo-1.0.tar.bz2\n".data] =
      ["[url=".data ++ [sqc] ++ "https://h/p/foo-1.0.tar.bz2".data ++ [sqc] ++
        ", md5=".data ++ [sqc] ++ [sqc] ++ "]".data] := by
  decide

/-- C6 amended: a record line whose URL's final path segment has fewer than
three dash-delimited components yields an entry whose package name is empty
(the segment minus its last two components), rather than any failure — the
decoder is a total function. -/
theorem pinfile_short_segment_empty_name (line : PyStr)
    (h : (splitOnChar '-' (pathName (urlparse (pyStrip line)).path)).length < 3) :
    pinfileEntry line =
      "[url=".data ++ [sqc] ++
        ((urlparse (pyStrip line)).scheme ++ "://".data ++
          (urlparse (pyStrip line)).netloc ++ (urlparse (pyStrip line)).path) ++ [sqc] ++
        ", md5=".data ++ [sqc] ++ (urlparse (pyStrip line)).fragment ++ [sqc] ++
        "]".data := by
  simp only [pinfileEntry]
  rw [short_segment_name_empty _ h]
  simp [List.append_assoc]

/-- Witness for the amended C6 at a concrete two-component line. -/
theorem pinfile_short_segment_empty_name_witness :
    pinfileEntry "https://h/p/foo-1.0.tar.bz2\n".data =
      "[url=".data ++ [sqc] ++
        ((urlparse (pyStrip "https://h/p/foo-1.0.tar.bz2\n".data)).scheme ++ "://".data ++
          (urlparse (pyStrip "https://h/p/foo-1.0.tar.bz2\n".data)).netloc ++
          (urlparse (pyStrip "https://h/p/foo-1.0.tar.bz2\n".data)).path) ++ [sqc] ++
        ", md5=".data ++ [sqc] ++
        (urlparse (pyStrip "https://h/p/foo-1.0.tar.bz2\n".data)).fragment ++ [sqc] ++
        "]".data :=
  pinfile_short_segment_empty_name "https://h/p/foo-1.0.tar.bz2\n".data (by decide)

/-- schemeOK captures the claim's well-formedness of the scheme part: a
nonempty lowercase scheme of valid scheme characters starting with a
letter, with no whitespace. -/
def schemeOK (s : PyStr) : Bool :=
  !s.isEmpty && s.all schemeChar && (s.headD ' ').isAlpha &&
    s.all (fun c => c.toLower = c) && s.all (fun c => !pyIsSpace c)

/-- hostOK captures the claim's well-formedness of the host part: no path,
query or fragment delimiters and no whitespace. -/
def hostOK (h : PyStr) : Bool :=
  h.all (fun c => c ≠ '/' && c ≠ '?' && c ≠ '#' && !pyIsSpace c)

/-- pathOK captures the claim's well-formedness of the path part: starts
with a slash, with no query or fragment delimiters and no whitespace. -/
def pathOK (p : PyStr) : Bool :=
  (p.headD ' ' = '/') && p.all (fun c => c ≠ '?' && c ≠ '#' && !pyIsSpace c)

/-- splitOnFirst_append_of_not_mem: splitting at the first separator
occurrence recovers a separator-free prefix exactly. -/
theorem splitOnFirst_append_of_not_mem (c : Char) (xs ys : PyStr)
    (h : ∀ x ∈ xs, x ≠ c) :
    splitOnFirst c (xs ++ c :: ys) = some (xs, ys) := by
  induction xs with
  | nil => simp [splitOnFirst]
  | cons a as ih =>
    have ha : a ≠ c := h a (List.mem_cons_self a as)
    simp [splitOnFirst, ha, ih (fun x hx => h x (List.mem_cons_of_mem a hx))]

/-- splitOnFirst_none_of_not_mem: a separator-free string does not split. -/
theorem splitOnFirst_none_of_not_mem (c : Char) (xs : PyStr)
    (h : ∀ x ∈ xs, x ≠ c) :
    splitOnFirst c xs = none := by
  induction xs with
  | nil => rfl
  | cons a as ih =>
    have ha : a ≠ c := h a (List.mem_cons_self a as)
    simp [splitOnFirst, ha, ih (fun x hx => h x (List.mem_cons_of_mem a hx))]

/-- takeWhile_append_cons: takeWhile over a satisfying prefix followed by a
failing element returns exactly the prefix. -/
theorem takeWhile_append_cons (pred : Char → Bool) (xs : List Char) (y : Char)
    (ys : List Char) (hxs : ∀ x ∈ xs, pred x = true) (hy : pred y = false) :
    (xs ++ y :: ys).takeWhile pred = xs := by
  induction xs with
  | nil => simp [List.takeWhile_cons, hy]
  | cons a as ih =>
    have ha : pred a = true := hxs a (List.mem_cons_self a as)
    simp [List.takeWhile_cons, ha, ih (fun x hx => hxs x (List.mem_cons_of_mem a hx))]

/-- dropWhile_eq_self_of: dropWhile is the identity when no element
satisfies the predicate (checked at the head). -/
theorem dropWhile_eq_self_of (pred : Char → Bool) (l : List Char)
    (h : ∀ c ∈ l, pred c = false) : l.dropWhile pred = l := by
  cases l with
  | nil => rfl
  | cons a as => simp [List.dropWhile_cons, h a (List.mem_cons_self a as)]

/-- pyStrip_append_newline: stripping a whitespace-free nonempty string with
a trailing newline yields the string itself. -/
theorem pyStrip_append_newline (u : PyStr) (hne : u ≠ [])
    (h : ∀ c ∈ u, pyIsSpace c = false) :
    pyStrip (u ++ ['\n']) = u := by
  unfold pyStrip
  have h1 : (u ++ ['\n']).dropWhile pyIsSpace = u ++ ['\n'] := by
    cases u with
    | nil => exact absurd rfl hne
    | cons a as =>
      rw [List.cons_append, List.dropWhile_cons, h a (List.mem_cons_self a as)]
      simp
  rw [h1, List.reverse_append]
  simp only [List.reverse_cons, List.reverse_nil, List.nil_append, List.singleton_append]
  rw [List.dropWhile_cons, if_pos (by decide)]
  rw [dropWhile_eq_self_of pyIsSpace u.reverse (fun c hc => h c (List.mem_reverse.mp hc))]
  exact List.reverse_reverse u

/-- urlparse_wellformed: on `scheme ++ "://" ++ host ++ path` with the three
well-formedness conditions, urlparse recovers exactly the three parts, with
empty query and fragment. -/
theorem urlparse_wellformed (s host p : PyStr)
    (hs : schemeOK s = true) (hh : hostOK host = true) (hp : pathOK p = true) :
    urlparse (s ++ "://".data ++ host ++ p) = ⟨s, host, p, [], []⟩ := by
  simp only [schemeOK, Bool.and_eq_true, List.all_eq_true] at hs
  obtain ⟨⟨⟨⟨hne, hall⟩, hhead⟩, hlower⟩, _⟩ := hs
  simp only [hostOK, Bool.and_eq_true, List.all_eq_true] at hh
  simp only [pathOK, Bool.and_eq_true, List.all_eq_true] at hp
  obtain ⟨hphead, hpall⟩ := hp
  obtain ⟨p0, ptail, rfl⟩ : ∃ p0 ptail, p = p0 :: ptail := by
    cases p with
    | nil => simp at hphead
    | cons a b => exact ⟨a, b, rfl⟩
  have hp0 : p0 = '/' := by simpa using hphead
  subst hp0
  have hrow : s ++ "://".data ++ host ++ ('/' :: ptail) =
      s ++ ':' :: ('/' :: '/' :: (host ++ '/' :: ptail)) := by
    have : "://".data = [':', '/', '/'] := rfl
    rw [this]
    simp [List.append_assoc]
  rw [hrow]
  have hsplit1 : splitOnFirst ':' (s ++ ':' :: ('/' :: '/' :: (host ++ '/' :: ptail))) =
      some (s, '/' :: '/' :: (host ++ '/' :: ptail)) := by
    refine splitOnFirst_append_of_not_mem ':' s _ ?_
    intro x hx heq
    have := hall x hx
    rw [heq] at this
    exact absurd this (by decide)
  have hne2 : s ≠ [] := by
    cases s with
    | nil => simp at hne
    | cons a b => exact List.cons_ne_nil a b
  have hmap : s.map Char.toLower = s := by
    calc s.map Char.toLower = s.map id :=
      List.map_congr_left (fun c hc => of_decide_eq_true (hlower c hc))
    _ = s := List.map_id s
  have htake : (host ++ '/' :: ptail).takeWhile
      (fun c => c ≠ '/' && c ≠ '?' && c ≠ '#') = host := by
    refine takeWhile_append_cons _ host '/' ptail ?_ (by decide)
    intro x hx
    have := hh x hx
    simp only [Bool.and_eq_true, decide_eq_true_eq] at this
    simp [this.1.1.1, this.1.1.2, this.1.2]
  have hdrop : (host ++ '/' :: ptail).drop host.length = '/' :: ptail :=
    List.drop_left host ('/' :: ptail)
  have hnofrag : splitOnFirst '#' ('/' :: ptail) = none := by
    refine splitOnFirst_none_of_not_mem '#' _ ?_
    intro x hx
    rcases List.mem_cons.mp hx with h1 | h2
    · subst h1; decide
    · have := hpall x (List.mem_cons_of_mem '/' h2)
      simp only [Bool.and_eq_true, decide_eq_true_eq] at this
      exact this.1.2
  have hnoquery : splitOnFirst '?' ('/' :: ptail) = none := by
    refine splitOnFirst_none_of_not_mem '?' _ ?_
    intro x hx
    rcases List.mem_cons.mp hx with h1 | h2
    · subst h1; decide
    · have := hpall x (List.mem_cons_of_mem '/' h2)
      simp only [Bool.and_eq_true, decide_eq_true_eq] at this
      exact this.1.1
  simp only [urlparse, hsplit1]
  rw [if_pos]
  · simp only [hmap, htake, hdrop, hnofrag, hnoquery]
  · simp only [Bool.and_eq_true, decide_eq_true_eq]
    refine ⟨⟨hne2, ?_⟩, ?_⟩
    · exact List.all_eq_true.mpr hall
    · cases s with
      | nil => exact absurd rfl hne2
      | cons a b => simpa using hhead

/-- joinDash_append_single: joining after appending one more part appends a
dash and that part. -/
theorem joinDash_append_single (xs : List PyStr) (y : PyStr) (hne : xs ≠ []) :
    joinDash (xs ++ [y]) = joinDash xs ++ '-' :: y := by
  induction xs with
  | nil => exact absurd rfl hne
  | cons x xs ih =>
    cases xs with
    | nil => simp [joinDash]
    | cons a as =>
      have h2 : joinDash (a :: as ++ [y]) = joinDash (a :: as) ++ '-' :: y :=
        ih (List.cons_ne_nil a as)
      calc joinDash (x :: a :: as ++ [y]) = x ++ '-' :: joinDash (a :: as ++ [y]) := rfl
      _ = x ++ '-' :: (joinDash (a :: as) ++ '-' :: y) := by rw [h2]
      _ = (x ++ '-' :: joinDash (a :: as)) ++ '-' :: y := by simp [List.append_assoc]
      _ = joinDash (x :: a :: as) ++ '-' :: y := rfl

/-- lastTwoStripped is the package name the specification prescribes: the
final path segment with exactly its last two dash-delimited components
stripped, the remaining components joined by dashes. -/
def lastTwoStripped (seg : PyStr) : PyStr :=
  joinDash ((splitOnChar '-' seg).take ((splitOnChar '-' seg).length - 2))

/-- rsplit_take_join: with at least three dash components in the segment,
the name computed via `rsplit("-", 3)` and dropping the last two components
equals the segment with exactly its last two components stripped. -/
theorem rsplit_take_join (seg : PyStr) :
    joinDash ((pyRsplitDash3 seg).take ((pyRsplitDash3 seg).length - 2)) =
      lastTwoStripped seg := by
  unfold lastTwoStripped
  by_cases hle : (splitOnChar '-' seg).length ≤ 4
  · simp only [pyRsplitDash3]
    rw [if_pos hle]
  · simp only [pyRsplitDash3]
    rw [if_neg hle]
    have hL : 5 ≤ (splitOnChar '-' seg).length := by omega
    have hlen : ((splitOnChar '-' seg).drop ((splitOnChar '-' seg).length - 3)).length = 3 := by
      rw [List.length_drop]
      omega
    obtain ⟨a, b, c, habc⟩ := List.length_eq_three.mp hlen
    rw [habc]
    have htlen : ((splitOnChar '-' seg).take ((splitOnChar '-' seg).length - 3)).length =
        (splitOnChar '-' seg).length - 3 := by
      rw [List.length_take]
      omega
    have htake2 :
        (joinDash ((splitOnChar '-' seg).take ((splitOnChar '-' seg).length - 3)) ::
          [a, b, c]).take 2 =
        [joinDash ((splitOnChar '-' seg).take ((splitOnChar '-' seg).length - 3)), a] := rfl
    have hlen4 : (joinDash ((splitOnChar '-' seg).take ((splitOnChar '-' seg).length - 3)) ::
        [a, b, c]).length - 2 = 2 := rfl
    rw [hlen4, htake2]
    have hsplitup : (splitOnChar '-' seg).take ((splitOnChar '-' seg).length - 2) =
        (splitOnChar '-' seg).take ((splitOnChar '-' seg).length - 3) ++ [a] := by
      have h32 : (splitOnChar '-' seg).length - 2 = ((splitOnChar '-' seg).length - 3) + 1 := by
        omega
      rw [h32, List.take_add]
      congr 1
      rw [habc]
      rfl
    rw [hsplitup, joinDash_append_single _ a (by
      intro hnil
      rw [hnil] at htlen
      simp at htlen
      omega)]
    simp [joinDash]

/-- pinfileEntry_wellformed: a pin line holding a well-formed URL decodes to
the match-spec entry embedding that URL byte-identically, with the name
computed from the final path segment and an empty checksum. -/
theorem pinfileEntry_wellformed (s host p : PyStr)
    (hs : schemeOK s = true) (hh : hostOK host = true) (hp : pathOK p = true) :
    pinfileEntry ((s ++ "://".data ++ host ++ p) ++ ['\n']) =
      lastTwoStripped (pathName p) ++ "[url=".data ++ [sqc] ++
        (s ++ "://".data ++ host ++ p) ++ [sqc] ++ ", md5=".data ++ [sqc] ++ [sqc] ++
        "]".data := by
  have hne : s ++ "://".data ++ host ++ p ≠ [] := by
    simp only [schemeOK, Bool.and_eq_true] at hs
    intro hnil
    have : s = [] := by
      cases s with
      | nil => rfl
      | cons a b => simp at hnil
    rw [this] at hs
    simp at hs
  have hnospace : ∀ c ∈ s ++ "://".data ++ host ++ p, pyIsSpace c = false := by
    intro c hc
    simp only [schemeOK, Bool.and_eq_true, List.all_eq_true] at hs
    simp only [hostOK, Bool.and_eq_true, List.all_eq_true] at hh
    simp only [pathOK, Bool.and_eq_true, List.all_eq_true] at hp
    rcases List.mem_append.mp hc with hc1 | hcp
    · rcases List.mem_append.mp hc1 with hc2 | hchost
      · rcases List.mem_append.mp hc2 with hcs | hcsep
        · have := hs.2 c hcs
          simpa using this
        · have hsep : c = ':' ∨ c = '/' ∨ c = '/' := by
            have hmem : c ∈ [':', '/', '/'] := hcsep
            simpa using hmem
          rcases hsep with h1 | h1 | h1 <;> subst h1 <;> decide
      · have := hh c hchost
        simp only [Bool.and_eq_true, decide_eq_true_eq] at this
        simpa using this.2
    · have := hp.2 c hcp
      simp only [Bool.and_eq_true, decide_eq_true_eq] at this
      simpa using this.2
  have hstrip := pyStrip_append_newline _ hne hnospace
  simp only [pinfileEntry, hstrip, urlparse_wellformed s host p hs hh hp]
  rw [rsplit_take_join]
  simp [List.append_assoc]

/-- C3: writing N records with `pin` (header `@EXPLICIT`, one URL per line,
in resolution order) and decoding the resulting lines yields exactly N
entries in the same order; each entry embeds the record's URL byte-identical
and carries the package name obtained from the URL's final path segment by
stripping exactly its last two dash-delimited components (so the segment
`foo-bar-1.2.3-0.tar.bz2` gives the name `foo-bar`). -/
theorem pin_roundtrip (records : List RepoDataRecord)
    (h : ∀ r ∈ records, ∃ s host p, r.url = s ++ "://".data ++ host ++ p ∧
      schemeOK s = true ∧ hostOK host = true ∧ pathOK p = true ∧
      3 ≤ (splitOnChar '-' (pathName p)).length) :
    get_match_specs_from_conda_pinfile (pinWrittenLines records) =
      records.map (fun r =>
        lastTwoStripped (pathName (urlparse r.url).path) ++ "[url=".data ++ [sqc] ++
          r.url ++ [sqc] ++ ", md5=".data ++ [sqc] ++ [sqc] ++ "]".data) ∧
    (get_match_specs_from_conda_pinfile (pinWrittenLines records)).length =
      records.length := by
  have hdecode : get_match_specs_from_conda_pinfile (pinWrittenLines records) =
      (records.map (fun r => r.url ++ ['\n'])).map pinfileEntry := by
    unfold get_match_specs_from_conda_pinfile pinWrittenLines
    have hhd : pyStrip "@EXPLICIT\n".data = "@EXPLICIT".data := by decide
    simp [pinfileGo, hhd, pinfileGo_false_eq_map]
  rw [hdecode, List.map_map]
  constructor
  · apply List.map_congr_left
    intro r hr
    obtain ⟨s, host, p, hurl, hs, hh, hp, _⟩ := h r hr
    simp only [Function.comp]
    rw [hurl, pinfileEntry_wellformed s host p hs hh hp,
      urlparse_wellformed s host p hs hh hp]
  · simp

/-- recC3 is a concrete record with the claim's example final segment
`foo-bar-1.2.3-0.tar.bz2`. -/
def recC3 : RepoDataRecord :=
  ⟨"https://conda.anaconda.org/conda-forge/linux-64/foo-bar-1.2.3-0.tar.bz2".data⟩

/-- Witness for C3 at a concrete one-record list; the decoded package name
of the example segment is exactly `foo-bar`. -/
theorem pin_roundtrip_witness :
    (get_match_specs_from_conda_pinfile (pinWrittenLines [recC3]) =
      [recC3].map (fun r =>
        lastTwoStripped (pathName (urlparse r.url).path) ++ "[url=".data ++ [sqc] ++
          r.url ++ [sqc] ++ ", md5=".data ++ [sqc] ++ [sqc] ++ "]".data) ∧
    (get_match_specs_from_conda_pinfile (pinWrittenLines [recC3])).length =
      [recC3].length) ∧
    lastTwoStripped "foo-bar-1.2.3-0.tar.bz2".data = "foo-bar".data :=
  ⟨pin_roundtrip [recC3] (fun r hr => by
    rw [List.mem_singleton] at hr
    subst hr
    exact ⟨"https".data, "conda.anaconda.org".data,
      "/conda-forge/linux-64/foo-bar-1.2.3-0.tar.bz2".data, rfl, rfl, rfl, rfl,
      by decide⟩),
   by decide⟩

/-- char_toNat_inj: characters with equal code points are equal. -/
theorem char_toNat_inj (a b : Char) (h : a.toNat = b.toNat) : a = b := by
  have h2 := congrArg Char.ofNat h
  rwa [Char.ofNat_toNat, Char.ofNat_toNat] at h2

/-- strLt_asymm: the code-point order is asymmetric. -/
theorem strLt_asymm : ∀ a b : PyStr, strLt a b = true → strLt b a = false
  | [], [], h => by simp [strLt] at h
  | [], _ :: _, _ => rfl
  | _ :: _, [], h => by simp [strLt] at h
  | a :: as, b :: bs, h => by
    simp only [strLt] at h ⊢
    by_cases h1 : a.toNat < b.toNat
    · rw [if_neg (by omega), if_pos h1]
    · rw [if_neg h1] at h
      by_cases h2 : b.toNat < a.toNat
      · rw [if_pos h2] at h
        exact absurd h (by simp)
      · rw [if_neg h2] at h
        rw [if_neg h2, if_neg h1]
        exact strLt_asymm as bs h

/-- strLt_conn: two strings neither of which precedes the other are equal. -/
theorem strLt_conn : ∀ a b : PyStr, strLt a b = false → strLt b a = false → a = b
  | [], [], _, _ => rfl
  | [], _ :: _, h, _ => by simp [strLt] at h
  | _ :: _, [], _, h => by simp [strLt] at h
  | a :: as, b :: bs, h, h' => by
    simp only [strLt] at h h'
    by_cases h1 : a.toNat < b.toNat
    · rw [if_pos h1] at h
      exact absurd h (by simp)
    · by_cases h2 : b.toNat < a.toNat
      · rw [if_pos h2] at h'
        exact absurd h' (by simp)
      · rw [if_neg h1, if_neg h2] at h
        rw [if_neg h2, if_neg h1] at h'
        have hab : a = b := char_toNat_inj a b (by omega)
        rw [hab, strLt_conn as bs h h']

/-- strLe_total placeholder -/
theorem strLe_total (a b : PyStr) : strLe a b = true ∨ strLe b a = true := by
  unfold strLe
  by_cases h : strLt b a = true
  · right
    rw [strLt_asymm b a h]
    rfl
  · left
    rw [Bool.not_eq_true] at h
    rw [h]
    rfl

/-- strLe_trans: the code-point order is transitive. -/
theorem strLt_trans : ∀ a b c : PyStr, strLt a b = true → strLt b c = true → strLt a c = true
  | [], [], _, h, _ => by simp [strLt] at h
  | [], _ :: _, [], _, h => by simp [strLt] at h
  | [], _ :: _, _ :: _, _, _ => rfl
  | _ :: _, [], _, h, _ => by simp [strLt] at h
  | _ :: _, _ :: _, [], _, h => by simp [strLt] at h
  | a :: as, b :: bs, c :: cs, h, h' => by
    simp only [strLt] at h h' ⊢
    by_cases h1 : a.toNat < b.toNat <;> by_cases h2 : b.toNat < c.toNat
    · rw [if_pos (by omega)]
    · rw [if_neg h2] at h'
      by_cases h3 : c.toNat < b.toNat
      · rw [if_pos h3] at h'
        exact absurd h' (by simp)
      · have : b.toNat = c.toNat := by omega
        rw [if_pos (by omega)]
    · rw [if_neg h1] at h
      by_cases h3 : b.toNat < a.toNat
      · rw [if_pos h3] at h
        exact absurd h (by simp)
      · have : a.toNat = b.toNat := by omega
        rw [if_pos (by omega)]
    · rw [if_neg h1] at h
      rw [if_neg h2] at h'
      by_cases h3 : b.toNat < a.toNat
      · rw [if_pos h3] at h
        exact absurd h (by simp)
      · by_cases h4 : c.toNat < b.toNat
        · rw [if_pos h4] at h'
          exact absurd h' (by simp)
        · rw [if_neg h3] at h
          rw [if_neg h4] at h'
          rw [if_neg (by omega), if_neg (by omega)]
          exact strLt_trans as bs cs h h'

/-- strLe_trans: the reflexive order is transitive. -/
theorem strLe_trans (a b c : PyStr) (h : strLe a b = true) (h' : strLe b c = true) :
    strLe a c = true := by
  unfold strLe at h h' ⊢
  rw [Bool.not_eq_true'] at h h' ⊢
  by_cases hca : strLt c a = true
  · by_cases hbc : strLt b c = true
    · have := strLt_trans b c a hbc hca
      rw [this] at h
      exact absurd h (by simp)
    · rw [Bool.not_eq_true] at hbc
      have hbceq : b = c := strLt_conn b c hbc h'
      rw [hbceq] at h
      rw [h] at hca
      exact absurd hca (by simp)
  · rw [Bool.not_eq_true] at hca
    exact hca

/-- strLe_antisymm_keys: mutually ordered strings are equal. -/
theorem strLe_antisymm (a b : PyStr) (h : strLe a b = true) (h' : strLe b a = true) :
    a = b := by
  unfold strLe at h h'
  rw [Bool.not_eq_true'] at h h'
  exact strLt_conn a b h' h

/-- kvLe is the key order on mapping items. -/
def kvLe (a b : PyStr × JVal) : Prop := strLe a.1 b.1 = true

/-- kvInsert_perm: inserting is a permutation of consing. -/
theorem kvInsert_perm (x : PyStr × JVal) (l : List (PyStr × JVal)) :
    (kvInsert x l).Perm (x :: l) := by
  induction l with
  | nil => exact List.Perm.refl _
  | cons y ys ih =>
    unfold kvInsert
    split
    · exact List.Perm.refl _
    · exact (ih.cons y).trans (List.Perm.swap x y ys)

/-- sortKvs_perm: sorting is a permutation. -/
theorem sortKvs_perm (l : List (PyStr × JVal)) : (sortKvs l).Perm l := by
  induction l with
  | nil => exact List.Perm.refl _
  | cons x xs ih => exact (kvInsert_perm x (sortKvs xs)).trans (ih.cons x)

/-- kvInsert_sorted: inserting into a sorted list keeps it sorted. -/
theorem kvInsert_sorted (x : PyStr × JVal) (l : List (PyStr × JVal))
    (h : l.Pairwise kvLe) : (kvInsert x l).Pairwise kvLe := by
  induction l with
  | nil => simp [kvInsert, List.Pairwise]
  | cons y ys ih =>
    unfold kvInsert
    split
    · refine List.Pairwise.cons ?_ h
      intro z hz
      rcases List.mem_cons.mp hz with h1 | h2
      · subst h1
        assumption
      · have hyz : kvLe y z := (List.pairwise_cons.mp h).1 z h2
        exact strLe_trans _ _ _ (by assumption) hyz
    · rename_i hxy
      obtain ⟨hyall, hys⟩ := List.pairwise_cons.mp h
      refine List.Pairwise.cons ?_ (ih hys)
      intro z hz
      have hz2 : z ∈ x :: ys := (kvInsert_perm x ys).mem_iff.mp hz
      rcases List.mem_cons.mp hz2 with h1 | h2
      · subst h1
        rcases strLe_total z.1 y.1 with htot | htot
        · exact absurd htot (by simpa using hxy)
        · exact htot
      · exact hyall z h2

/-- sortKvs_sorted: the sort produces a key-sorted list. -/
theorem sortKvs_sorted (l : List (PyStr × JVal)) : (sortKvs l).Pairwise kvLe := by
  induction l with
  | nil => simp [sortKvs, List.Pairwise]
  | cons x xs ih => exact kvInsert_sorted x (sortKvs xs) ih

/-- sorted_perm_nodupkeys_eq: two key-sorted lists that are permutations of
each other and have pairwise distinct keys are equal. -/
theorem sorted_perm_nodupkeys_eq : ∀ (l1 l2 : List (PyStr × JVal)),
    l1.Perm l2 → l1.Pairwise kvLe → l2.Pairwise kvLe →
    (l1.map Prod.fst).Nodup → l1 = l2
  | [], l2, hp, _, _, _ => (hp.nil_eq).symm ▸ rfl
  | a :: l1, [], hp, _, _, _ => absurd hp.symm.nil_eq (by simp)
  | a :: l1, b :: l2, hp, hs1, hs2, hnd => by
    obtain ⟨ha1, hs1'⟩ := List.pairwise_cons.mp hs1
    obtain ⟨hb1, hs2'⟩ := List.pairwise_cons.mp hs2
    have hab : a = b := by
      have hamem : a ∈ b :: l2 := hp.mem_iff.mp (List.mem_cons_self a l1)
      have hbmem : b ∈ a :: l1 := hp.symm.mem_iff.mp (List.mem_cons_self b l2)
      rcases List.mem_cons.mp hamem with h1 | h1
      · exact h1
      rcases List.mem_cons.mp hbmem with h2 | h2
      · exact h2.symm
      have hle1 : strLe a.1 b.1 = true := ha1 b h2
      have hle2 : strLe b.1 a.1 = true := hb1 a h1
      have hkey : a.1 = b.1 := strLe_antisymm _ _ hle1 hle2
      exfalso
      have : a.1 ∈ l1.map Prod.fst := by
        rw [hkey]
        exact List.mem_map_of_mem Prod.fst h2
      exact (List.nodup_cons.mp hnd).1 this
    subst hab
    have htail : l1.Perm l2 := hp.cons_inv
    rw [sorted_perm_nodupkeys_eq l1 l2 htail hs1' hs2' (List.nodup_cons.mp hnd).2]

/-- canonKvs_eq_map: canonKvs is a map over the items. -/
theorem canonKvs_eq_map (l : List (PyStr × JVal)) :
    canonKvs l = l.map (fun kv => (kv.1, canon kv.2)) := by
  induction l with
  | nil => rfl
  | cons kv kvs ih => simp [canonKvs, ih]

/-- jequivKvs_keys: equivalent item lists have identical key sequences. -/
theorem jequivKvs_keys : ∀ (kvs mids : List (PyStr × JVal)), JEquivKvs kvs mids →
    kvs.map Prod.fst = mids.map Prod.fst
  | [], [], _ => rfl
  | [], _ :: _, h => absurd h (by simp [JEquivKvs])
  | _ :: _, [], h => absurd h (by simp [JEquivKvs])
  | kv :: kvs, kv2 :: mids, h => by
    have h' : kv.1 = kv2.1 ∧ JEquiv kv.2 kv2.2 ∧ JEquivKvs kvs mids := h
    simp [h'.1, jequivKvs_keys kvs mids h'.2.2]

/-- wfKeysKvs_mem: item-list well-formedness gives value well-formedness. -/
theorem wfKeysKvs_mem : ∀ (kvs : List (PyStr × JVal)), wfKeysKvs kvs = true →
    ∀ kv ∈ kvs, wfKeys kv.2 = true
  | [], _, kv, hkv => absurd hkv (by simp)
  | kv0 :: kvs, h, kv, hkv => by
    have h' : wfKeys kv0.2 = true ∧ wfKeysKvs kvs = true := by
      simpa [wfKeysKvs] using h
    rcases List.mem_cons.mp hkv with h1 | h2
    · rw [h1]
      exact h'.1
    · exact wfKeysKvs_mem kvs h'.2 kv h2

/-- distinctKeys_nodup: the distinct-keys check gives `Nodup` of the key
sequence. -/
theorem distinctKeys_nodup (kvs : List (PyStr × JVal)) (h : distinctKeys kvs = true) :
    (kvs.map Prod.fst).Nodup := by
  induction kvs with
  | nil => simp
  | cons kv kvs ih =>
    have h' : kvs.all (fun kv2 => kv2.1 ≠ kv.1) = true ∧ distinctKeys kvs = true := by
      simpa [distinctKeys] using h
    rw [List.map_cons, List.nodup_cons]
    refine ⟨?_, ih h'.2⟩
    intro hmem
    obtain ⟨kv2, hkv2, hfst⟩ := List.mem_map.mp hmem
    have h2 := List.all_eq_true.mp h'.1 kv2 hkv2
    simp only [decide_eq_true_eq] at h2
    exact h2 hfst

mutual

/-- canon_eq_of_jequiv: documents that are equal up to mapping-key
reordering, with parser-produced (distinct-key) mappings, have the same
canonical (recursively key-sorted) form. -/
theorem canon_eq_of_jequiv (v w : JVal) (hv : wfKeys v = true) (hw : wfKeys w = true)
    (h : JEquiv v w) : canon v = canon w := by
  cases v with
  | str s =>
    cases w with
    | str t => exact congrArg JVal.str h
    | arr ys => exact absurd h (by simp [JEquiv])
    | obj kvs => exact absurd h (by simp [JEquiv])
  | arr xs =>
    cases w with
    | str t => exact absurd h (by simp [JEquiv])
    | arr ys =>
      have hx : wfKeysList xs = true := by simpa [wfKeys] using hv
      have hy : wfKeysList ys = true := by simpa [wfKeys] using hw
      have hl : JEquivList xs ys := h
      simp only [canon]
      rw [canonList_eq_of_jequivList xs ys hx hy hl]
    | obj kvs => exact absurd h (by simp [JEquiv])
  | obj kvs1 =>
    cases w with
    | str t => exact absurd h (by simp [JEquiv])
    | arr ys => exact absurd h (by simp [JEquiv])
    | obj kvs2 =>
      have h' : ∃ mid, JEquivKvs kvs1 mid ∧ mid.Perm kvs2 := h
      obtain ⟨mid, hkv, hperm⟩ := h'
      have hv' : distinctKeys kvs1 = true ∧ wfKeysKvs kvs1 = true := by
        simpa [wfKeys] using hv
      have hw' : distinctKeys kvs2 = true ∧ wfKeysKvs kvs2 = true := by
        simpa [wfKeys] using hw
      have hv1 : ∀ kv ∈ kvs1, wfKeys kv.2 = true := wfKeysKvs_mem kvs1 hv'.2
      have hv2 : ∀ kv ∈ mid, wfKeys kv.2 = true := fun kv hkvm =>
        wfKeysKvs_mem kvs2 hw'.2 kv (hperm.mem_iff.mp hkvm)
      have hck : canonKvs kvs1 = canonKvs mid :=
        canonKvs_eq_of_jequivKvs kvs1 mid hv1 hv2 hkv
      simp only [canon]
      congr 1
      rw [hck]
      have hpm : (canonKvs mid).Perm (canonKvs kvs2) := by
        rw [canonKvs_eq_map, canonKvs_eq_map]
        exact hperm.map _
      have hkeysmid : (canonKvs mid).map Prod.fst = kvs1.map Prod.fst := by
        rw [canonKvs_eq_map, List.map_map]
        have : (Prod.fst ∘ fun kv : PyStr × JVal => (kv.1, canon kv.2)) = Prod.fst := by
          funext kv
          rfl
        rw [this, jequivKvs_keys kvs1 mid hkv]
      apply sorted_perm_nodupkeys_eq
      · exact (sortKvs_perm _).trans (hpm.trans (sortKvs_perm _).symm)
      · exact sortKvs_sorted _
      · exact sortKvs_sorted _
      · have hnd : ((canonKvs mid).map Prod.fst).Nodup := by
          rw [hkeysmid]
          exact distinctKeys_nodup kvs1 hv'.1
        have hpk : ((sortKvs (canonKvs mid)).map Prod.fst).Perm
            ((canonKvs mid).map Prod.fst) := (sortKvs_perm _).map _
        exact hpk.nodup_iff.mpr hnd

/-- canonList_eq_of_jequivList: pointwise equivalent lists have equal
canonical forms. -/
theorem canonList_eq_of_jequivList (xs ys : List JVal) (hx : wfKeysList xs = true)
    (hy : wfKeysList ys = true) (h : JEquivList xs ys) : canonList xs = canonList ys := by
  cases xs with
  | nil =>
    cases ys with
    | nil => rfl
    | cons y ys => exact absurd h (by simp [JEquivList])
  | cons x xs =>
    cases ys with
    | nil => exact absurd h (by simp [JEquivList])
    | cons y ys =>
      have h' : JEquiv x y ∧ JEquivList xs ys := h
      have hx' : wfKeys x = true ∧ wfKeysList xs = true := by simpa [wfKeysList] using hx
      have hy' : wfKeys y = true ∧ wfKeysList ys = true := by simpa [wfKeysList] using hy
      simp only [canonList]
      rw [canon_eq_of_jequiv x y hx'.1 hy'.1 h'.1,
        canonList_eq_of_jequivList xs ys hx'.2 hy'.2 h'.2]

/-- canonKvs_eq_of_jequivKvs: pointwise equivalent item lists (equal keys,
equivalent values) have equal canonical forms. -/
theorem canonKvs_eq_of_jequivKvs (kvs mids : List (PyStr × JVal))
    (hkv : ∀ kv ∈ kvs, wfKeys kv.2 = true) (hmid : ∀ kv ∈ mids, wfKeys kv.2 = true)
    (h : JEquivKvs kvs mids) : canonKvs kvs = canonKvs mids := by
  cases kvs with
  | nil =>
    cases mids with
    | nil => rfl
    | cons y ys => exact absurd h (by simp [JEquivKvs])
  | cons kv kvs =>
    cases mids with
    | nil => exact absurd h (by simp [JEquivKvs])
    | cons kv2 mids =>
      have h' : kv.1 = kv2.1 ∧ JEquiv kv.2 kv2.2 ∧ JEquivKvs kvs mids := h
      simp only [canonKvs]
      rw [h'.1, canon_eq_of_jequiv kv.2 kv2.2 (hkv kv (List.mem_cons_self kv kvs))
          (hmid kv2 (List.mem_cons_self kv2 mids)) h'.2.1,
        canonKvs_eq_of_jequivKvs kvs mids
          (fun x hx => hkv x (List.mem_cons_of_mem kv hx))
          (fun x hx => hmid x (List.mem_cons_of_mem kv2 hx)) h'.2.2]

end

/-- fromHexDigit decodes one hex digit character. -/
def fromHexDigit (c : Char) : Option Nat :=
  if 48 ≤ c.toNat ∧ c.toNat ≤ 57 then some (c.toNat - 48)
  else if 97 ≤ c.toNat ∧ c.toNat ≤ 102 then some (c.toNat - 87)
  else if 65 ≤ c.toNat ∧ c.toNat ≤ 70 then some (c.toNat - 55)
  else none

/-- fromHex4 decodes four hex digit characters. -/
def fromHex4 (a b c d : Char) : Option Nat :=
  match fromHexDigit a, fromHexDigit b, fromHexDigit c, fromHexDigit d with
  | some x, some y, some z, some w => some (x * 4096 + y * 256 + z * 16 + w)
  | _, _, _, _ => none

/-- fromHexDigit_hexDigit: decoding inverts encoding on one digit. -/
theorem fromHexDigit_hexDigit (d : Nat) (h : d < 16) :
    fromHexDigit (hexDigit d) = some d := by
  interval_cases d <;> decide

/-- fromHex4_toHex4: decoding inverts the four-digit encoding. -/
theorem fromHex4_toHex4 (n : Nat) (h : n < 65536) :
    (match toHex4 n with
      | [a, b, c, d] => fromHex4 a b c d
      | _ => none) = some n := by
  simp only [toHex4, fromHex4]
  rw [fromHexDigit_hexDigit _ (by omega), fromHexDigit_hexDigit _ (by omega),
    fromHexDigit_hexDigit _ (by omega), fromHexDigit_hexDigit _ (by omega)]
  simp only []
  congr 1
  omega

/-- scanStrF scans an escaped JSON string body up to its closing quote,
returning the decoded characters and the remainder after the quote; the
fuel argument (one unit per decoded character) makes the recursion
structural.  It is the decoding inverse used to show that `escChar`
concatenations are uniquely decodable. -/
def scanStrF : Nat → List Char → Option (List Char × List Char)
  | 0, _ => none
  | f + 1, l =>
    match l with
    | [] => none
    | c :: rest =>
      if c = '"' then some ([], rest)
      else if c = '\\' then
        match rest with
        | [] => none
        | e :: rest2 =>
          if e = '"' then (scanStrF f rest2).map (fun p => ('"' :: p.1, p.2))
          else if e = '\\' then (scanStrF f rest2).map (fun p => ('\\' :: p.1, p.2))
          else if e = 'n' then (scanStrF f rest2).map (fun p => ('\n' :: p.1, p.2))
          else if e = 'r' then (scanStrF f rest2).map (fun p => ('\r' :: p.1, p.2))
          else if e = 't' then (scanStrF f rest2).map (fun p => ('\t' :: p.1, p.2))
          else if e = 'b' then (scanStrF f rest2).map (fun p => ('\x08' :: p.1, p.2))
          else if e = 'f' then (scanStrF f rest2).map (fun p => ('\x0c' :: p.1, p.2))
          else if e = 'u' then
            match rest2 with
            | h1 :: h2 :: h3 :: h4 :: rest3 =>
              match fromHex4 h1 h2 h3 h4 with
              | none => none
              | some v =>
                if 55296 ≤ v ∧ v < 56320 then
                  match rest3 with
                  | a :: b :: g1 :: g2 :: g3 :: g4 :: rest4 =>
                    if a = '\\' ∧ b = 'u' then
                      match fromHex4 g1 g2 g3 g4 with
                      | some w =>
                        if 56320 ≤ w ∧ w < 57344 then
                          (scanStrF f rest4).map (fun p =>
                            (Char.ofNat (65536 + (v - 55296) * 1024 + (w - 56320)) :: p.1, p.2))
                        else none
                      | none => none
                    else none
                  | _ => none
                else (scanStrF f rest3).map (fun p => (Char.ofNat v :: p.1, p.2))
            | _ => none
          else none
      else (scanStrF f rest).map (fun p => (c :: p.1, p.2))

/-- char_valid_nat: a character's code point is a Unicode scalar value. -/
theorem char_valid_nat (c : Char) :
    c.toNat < 55296 ∨ (57343 < c.toNat ∧ c.toNat < 1114112) := c.valid

/-- scanStrF_u_bmp: scanning a single `\uXXXX` escape of a non-surrogate
code point decodes that code point. -/
theorem scanStrF_u_bmp (f : Nat) (v : Nat) (hv : v < 65536)
    (hns : ¬(55296 ≤ v ∧ v < 56320)) (rest : List Char) :
    scanStrF (f + 1) ('\\' :: 'u' :: (toHex4 v ++ rest)) =
      (scanStrF f rest).map (fun p => (Char.ofNat v :: p.1, p.2)) := by
  have hfh : fromHex4 (hexDigit (v / 4096 % 16)) (hexDigit (v / 256 % 16))
      (hexDigit (v / 16 % 16)) (hexDigit (v % 16)) = some v := by
    have h := fromHex4_toHex4 v hv
    simpa [toHex4] using h
  simp only [toHex4, List.cons_append, List.nil_append]
  dsimp only [scanStrF]
  rw [if_neg (by decide), if_pos rfl, if_neg (by decide), if_neg (by decide),
    if_neg (by decide), if_neg (by decide), if_neg (by decide), if_neg (by decide),
    if_neg (by decide), if_pos rfl]
  rw [hfh]
  dsimp only
  rw [if_neg hns]

/-- scanStrF_u_pair: scanning a surrogate-pair escape decodes the combined
supplementary code point. -/
theorem scanStrF_u_pair (f : Nat) (v w : Nat) (hv1 : 55296 ≤ v) (hv2 : v < 56320)
    (hw1 : 56320 ≤ w) (hw2 : w < 57344) (rest : List Char) :
    scanStrF (f + 1) ('\\' :: 'u' :: (toHex4 v ++ ('\\' :: 'u' :: (toHex4 w ++ rest)))) =
      (scanStrF f rest).map (fun p =>
        (Char.ofNat (65536 + (v - 55296) * 1024 + (w - 56320)) :: p.1, p.2)) := by
  have hfv : fromHex4 (hexDigit (v / 4096 % 16)) (hexDigit (v / 256 % 16))
      (hexDigit (v / 16 % 16)) (hexDigit (v % 16)) = some v := by
    have h := fromHex4_toHex4 v (by omega)
    simpa [toHex4] using h
  have hfw : fromHex4 (hexDigit (w / 4096 % 16)) (hexDigit (w / 256 % 16))
      (hexDigit (w / 16 % 16)) (hexDigit (w % 16)) = some w := by
    have h := fromHex4_toHex4 w (by omega)
    simpa [toHex4] using h
  simp only [toHex4, List.cons_append, List.nil_append]
  dsimp only [scanStrF]
  rw [if_neg (by decide), if_pos rfl, if_neg (by decide), if_neg (by decide),
    if_neg (by decide), if_neg (by decide), if_neg (by decide), if_neg (by decide),
    if_neg (by decide), if_pos rfl]
  rw [hfv]
  dsimp only
  rw [if_pos ⟨hv1, hv2⟩, if_pos ⟨rfl, rfl⟩, hfw]
  dsimp only
  rw [if_pos ⟨hw1, hw2⟩]

/-- scanStrF_esc: scanning past one escaped character decodes exactly that
character, whatever it is — `escChar` output is uniquely decodable. -/
theorem scanStrF_esc (f : Nat) (c : Char) (rest : List Char) :
    scanStrF (f + 1) (escChar c ++ rest) =
      (scanStrF f rest).map (fun p => (c :: p.1, p.2)) := by
  by_cases h1 : c = '"'
  · subst h1; rfl
  by_cases h2 : c = '\\'
  · subst h2; rfl
  by_cases h3 : c = '\n'
  · subst h3; rfl
  by_cases h4 : c = '\r'
  · subst h4; rfl
  by_cases h5 : c = '\t'
  · subst h5; rfl
  by_cases h6 : c = '\x08'
  · subst h6; rfl
  by_cases h7 : c = '\x0c'
  · subst h7; rfl
  by_cases h8 : c.toNat < 32 ∨ (127 ≤ c.toNat ∧ c.toNat < 65536)
  · have hns : ¬(55296 ≤ c.toNat ∧ c.toNat < 56320) := by
      rcases char_valid_nat c with hvv | hvv <;> omega
    have hlt : c.toNat < 65536 := by rcases h8 with h | h <;> omega
    have hesc : escChar c = '\\' :: 'u' :: toHex4 c.toNat := by
      unfold escChar
      rw [if_neg h1, if_neg h2, if_neg h3, if_neg h4, if_neg h5, if_neg h6, if_neg h7,
        if_pos h8]
    rw [hesc, List.cons_append, List.cons_append,
      scanStrF_u_bmp f c.toNat hlt hns rest, Char.ofNat_toNat]
  by_cases h9 : 65536 ≤ c.toNat
  · have hbig : c.toNat < 1114112 := by
      rcases char_valid_nat c with hvv | hvv <;> omega
    have hesc : escChar c = '\\' :: 'u' :: (toHex4 (55296 + (c.toNat - 65536) / 1024) ++
        ('\\' :: 'u' :: toHex4 (56320 + (c.toNat - 65536) % 1024))) := by
      unfold escChar
      rw [if_neg h1, if_neg h2, if_neg h3, if_neg h4, if_neg h5, if_neg h6, if_neg h7,
        if_neg h8, if_pos h9]
      rfl
    rw [hesc, List.cons_append, List.cons_append, List.append_assoc,
      List.cons_append, List.cons_append]
    have hq : (c.toNat - 65536) / 1024 < 1024 := by omega
    have := scanStrF_u_pair f (55296 + (c.toNat - 65536) / 1024)
      (56320 + (c.toNat - 65536) % 1024) (by omega) (by omega) (by omega)
      (by omega) rest
    rw [this]
    have harith : 65536 + (55296 + (c.toNat - 65536) / 1024 - 55296) * 1024 +
        (56320 + (c.toNat - 65536) % 1024 - 56320) = c.toNat := by omega
    rw [harith, Char.ofNat_toNat]
  · have hesc : escChar c = [c] := by
      unfold escChar
      rw [if_neg h1, if_neg h2, if_neg h3, if_neg h4, if_neg h5, if_neg h6, if_neg h7,
        if_neg h8, if_neg h9]
    rw [hesc, List.cons_append, List.nil_append]
    dsimp only [scanStrF]
    rw [if_neg h1, if_neg h2]

/-- scanStrF_escList: scanning a fully escaped string body up to its
closing quote recovers the string and the remainder exactly. -/
theorem scanStrF_escList : ∀ (s : List Char) (f : Nat) (r : List Char),
    scanStrF (s.length + (f + 1)) (escList s ++ '"' :: r) = some (s, r)
  | [], f, r => by
    show scanStrF (f + 1) ('"' :: r) = some ([], r)
    dsimp only [scanStrF]
    rw [if_pos rfl]
  | c :: s, f, r => by
    have hlen : (c :: s).length + (f + 1) = (s.length + (f + 1)) + 1 := by
      simp [List.length_cons]
      omega
    have hesc : escList (c :: s) = escChar c ++ escList s := by
      simp [escList]
    rw [hlen, hesc, List.append_assoc, scanStrF_esc, scanStrF_escList s f r]
    rfl

/-- encStr_cancel: the JSON encoding of a string followed by arbitrary
material determines both the string and the remainder. -/
theorem encStr_cancel (s1 s2 r1 r2 : List Char)
    (h : encStr s1 ++ r1 = encStr s2 ++ r2) : s1 = s2 ∧ r1 = r2 := by
  have h' : escList s1 ++ '"' :: r1 = escList s2 ++ '"' :: r2 := by
    have h2 : ('"' :: (escList s1 ++ '"' :: r1) : List Char) =
        '"' :: (escList s2 ++ '"' :: r2) := by
      simpa [encStr, List.append_assoc] using h
    exact (List.cons.injEq _ _ _ _).mp h2 |>.2
  have e1 : scanStrF (s1.length + (s2.length + 1)) (escList s1 ++ '"' :: r1) =
      some (s1, r1) := scanStrF_escList s1 s2.length r1
  have e2 : scanStrF (s2.length + (s1.length + 1)) (escList s2 ++ '"' :: r2) =
      some (s2, r2) := scanStrF_escList s2 s1.length r2
  rw [h'] at e1
  rw [show s1.length + (s2.length + 1) = s2.length + (s1.length + 1) from by omega] at e1
  rw [e2] at e1
  have hp := Option.some.inj e1
  exact ⟨congrArg Prod.fst hp |>.symm, congrArg Prod.snd hp |>.symm⟩

/-- dumpsArr_str_shape: a nonempty string array serialization starts with a
double quote. -/
theorem dumpsArr_str_shape (y : PyStr) (ys : List PyStr) :
    ∃ u, dumpsArr ((y :: ys).map JVal.str) = '"' :: u := by
  cases ys with
  | nil => exact ⟨escList y ++ ['"'], rfl⟩
  | cons y2 ys2 =>
    refine ⟨escList y ++ ['"'] ++ ',' :: ' ' :: dumpsArr ((y2 :: ys2).map JVal.str), ?_⟩
    show encStr y ++ ',' :: ' ' :: dumpsArr ((y2 :: ys2).map JVal.str) = _
    simp [encStr, List.append_assoc]

/-- dumpsArr_str_cancel: the serialization of a list of strings followed by
a closing bracket determines the list and the remainder: two serialized
string arrays with equal renderings are equal lists. -/
theorem dumpsArr_str_cancel : ∀ (xs ys : List PyStr) (t1 t2 : List Char),
    dumpsArr (xs.map JVal.str) ++ ']' :: t1 = dumpsArr (ys.map JVal.str) ++ ']' :: t2 →
    xs = ys ∧ t1 = t2
  | [], [], t1, t2, h => by
    refine ⟨rfl, ?_⟩
    simpa [dumpsArr] using h
  | [], y :: ys, t1, t2, h => by
    obtain ⟨u, hu⟩ := dumpsArr_str_shape y ys
    rw [hu] at h
    have h2 : (']' :: t1 : List Char) = '"' :: (u ++ ']' :: t2) := by
      simpa [dumpsArr] using h
    exact absurd (List.cons.inj h2).1 (by decide)
  | x :: xs, [], t1, t2, h => by
    obtain ⟨u, hu⟩ := dumpsArr_str_shape x xs
    rw [hu] at h
    have h2 : ('"' :: (u ++ ']' :: t1) : List Char) = ']' :: t2 := by
      simpa [dumpsArr] using h
    exact absurd (List.cons.inj h2).1 (by decide)
  | [x], [y], t1, t2, h => by
    have h' : encStr x ++ ']' :: t1 = encStr y ++ ']' :: t2 := by
      simpa [dumpsArr, dumpsRaw] using h
    obtain ⟨hxy, ht⟩ := encStr_cancel x y _ _ h'
    exact ⟨by rw [hxy], (List.cons.inj ht).2⟩
  | [x], y :: y2 :: ys, t1, t2, h => by
    have h' : encStr x ++ ']' :: t1 =
        encStr y ++ ',' :: ' ' :: (dumpsArr ((y2 :: ys).map JVal.str) ++ ']' :: t2) := by
      simpa [dumpsArr, dumpsRaw, List.append_assoc] using h
    obtain ⟨hxy, ht⟩ := encStr_cancel x y _ _ h'
    exact absurd (List.cons.inj ht).1 (by decide)
  | x :: x2 :: xs, [y], t1, t2, h => by
    have h' : encStr x ++ ',' :: ' ' :: (dumpsArr ((x2 :: xs).map JVal.str) ++ ']' :: t1) =
        encStr y ++ ']' :: t2 := by
      simpa [dumpsArr, dumpsRaw, List.append_assoc] using h
    obtain ⟨hxy, ht⟩ := encStr_cancel x y _ _ h'
    exact absurd (List.cons.inj ht).1 (by decide)
  | x :: x2 :: xs, y :: y2 :: ys, t1, t2, h => by
    have h' : encStr x ++ ',' :: ' ' :: (dumpsArr ((x2 :: xs).map JVal.str) ++ ']' :: t1) =
        encStr y ++ ',' :: ' ' :: (dumpsArr ((y2 :: ys).map JVal.str) ++ ']' :: t2) := by
      simpa [dumpsArr, dumpsRaw, List.append_assoc] using h
    obtain ⟨hxy, ht⟩ := encStr_cancel x y _ _ h'
    have ht3 := (List.cons.inj ((List.cons.inj ht).2)).2
    obtain ⟨hrest, htt⟩ := dumpsArr_str_cancel (x2 :: xs) (y2 :: ys) t1 t2 ht3
    exact ⟨by rw [hxy, hrest], htt⟩

/-- envfileValue is the parsed declarative-file content with given channel
and dependency constraint strings. -/
def envfileValue (channels deps : List PyStr) : JVal :=
  .obj [("channels".data, .arr (channels.map .str)),
        ("dependencies".data, .arr (deps.map .str))]

/-- canonList_map_str: a list of strings is already canonical. -/
theorem canonList_map_str (l : List PyStr) : canonList (l.map .str) = l.map .str := by
  induction l with
  | nil => rfl
  | cons x xs ih => simp [canonList, canon, ih]

/-- canon_envfileValue: the envfile content is already canonical (its only
mapping has its keys in sorted order). -/
theorem canon_envfileValue (chs deps : List PyStr) :
    canon (envfileValue chs deps) = envfileValue chs deps := by
  simp only [envfileValue, canon, canonKvs, canonList_map_str, sortKvs, kvInsert]
  rw [if_pos (by decide)]

/-- dumpsEnvPrefix is the serialized content up to (and including) the
opening bracket of the dependencies list. -/
def dumpsEnvPrefix (chs : List PyStr) : List Char :=
  lbrace :: (encStr "channels".data ++ ':' :: ' ' :: '[' :: (dumpsArr (chs.map .str) ++
    ']' :: ',' :: ' ' :: (encStr "dependencies".data ++ [':', ' ', '['])))

/-- dumps_envfileValue: the serialization splits into a prefix depending
only on the channels and the serialized dependencies list. -/
theorem dumps_envfileValue (chs deps : List PyStr) :
    dumps (envfileValue chs deps) =
      dumpsEnvPrefix chs ++ (dumpsArr (deps.map JVal.str) ++ ']' :: [rbrace]) := by
  unfold dumps
  rw [canon_envfileValue]
  simp only [envfileValue, dumpsRaw, dumpsObj, dumpsEnvPrefix]
  simp [List.append_assoc]

/-- dumps_envfileValue_inj: changing the dependency constraint list changes
the serialized bytes. -/
theorem dumps_envfileValue_inj (chs deps1 deps2 : List PyStr) (hne : deps1 ≠ deps2) :
    dumps (envfileValue chs deps1) ≠ dumps (envfileValue chs deps2) := by
  intro h
  apply hne
  rw [dumps_envfileValue, dumps_envfileValue] at h
  have h2 := List.append_cancel_left h
  exact (dumpsArr_str_cancel _ _ _ _ h2).1

/-- C5: the bytes `record_hash` feeds the hash accumulator are stable under
reordering of mapping keys in the parsed declarative content (serialization
with sorted keys), change whenever any dependency constraint string
changes, and come from exactly one of the three identity branches —
declarative-file structure, directory path, or environment name — matching
the specification's set identity field. -/
theorem record_hash_stability (platform : PyStr)
    (envfile directory name pinfile : Option PyStr) (spec : EnvSpec)
    (c1 c2 : JVal) (chs deps1 deps2 : List PyStr)
    (hwf1 : wfKeys c1 = true) (hwf2 : wfKeys c2 = true) (heq : JEquiv c1 c2)
    (hdeps : deps1 ≠ deps2)
    (hspec : EnvSpec.construct platform envfile directory name pinfile = .ok spec) :
    (spec.envfile.isSome = true → record_hash spec c1 = record_hash spec c2) ∧
    (spec.envfile.isSome = true →
      record_hash spec (envfileValue chs deps1) ≠
        record_hash spec (envfileValue chs deps2)) ∧
    (boolToNat spec.envfile.isSome + boolToNat spec.directory.isSome +
      boolToNat spec.name.isSome = 1) ∧
    (spec.envfile.isSome = true → record_hash spec c1 = dumps c1) ∧
    (spec.directory.isSome = true → record_hash spec c1 = spec.directory.getD []) ∧
    (spec.name.isSome = true → record_hash spec c1 = spec.name.getD []) := by
  have ha : dumps c1 = dumps c2 := by
    unfold dumps
    rw [canon_eq_of_jequiv c1 c2 hwf1 hwf2 heq]
  have hb := dumps_envfileValue_inj chs deps1 deps2 hdeps
  unfold EnvSpec.construct at hspec
  split at hspec
  · exact absurd hspec (by simp)
  · rename_i hcond
    rw [Except.ok.injEq] at hspec
    subst hspec
    cases envfile <;> cases directory <;> cases name <;>
      simp_all [record_hash, boolToNat]

/-- specC5 is the spec constructed from a concrete envfile input. -/
def specC5 : EnvSpec :=
  { envfile := some "env.yaml".data, directory := none, name := none,
    pinfile := some "env.linux-64.pin.txt".data }

/-- c5a is a concrete two-key mapping. -/
def c5a : JVal := .obj [("b".data, .str "x".data), ("a".data, .str "y".data)]

/-- c5b is the same mapping with its keys in the other order. -/
def c5b : JVal := .obj [("a".data, .str "y".data), ("b".data, .str "x".data)]

/-- Witness for C5 at concrete contents, dependency lists and spec. -/
theorem record_hash_stability_witness :
    ((specC5.envfile.isSome = true → record_hash specC5 c5a = record_hash specC5 c5b) ∧
    (specC5.envfile.isSome = true →
      record_hash specC5 (envfileValue ["conda-forge".data] ["python=3.11".data]) ≠
        record_hash specC5 (envfileValue ["conda-forge".data] ["python=3.12".data])) ∧
    (boolToNat specC5.envfile.isSome + boolToNat specC5.directory.isSome +
      boolToNat specC5.name.isSome = 1) ∧
    (specC5.envfile.isSome = true → record_hash specC5 c5a = dumps c5a) ∧
    (specC5.directory.isSome = true → record_hash specC5 c5a = specC5.directory.getD []) ∧
    (specC5.name.isSome = true → record_hash specC5 c5a = specC5.name.getD [])) :=
  record_hash_stability "linux-64".data (some "env.yaml".data) none none none specC5
    c5a c5b ["conda-forge".data] ["python=3.11".data] ["python=3.12".data]
    rfl rfl
    ⟨([("b".data, JVal.str "x".data), ("a".data, JVal.str "y".data)] :
        List (PyStr × JVal)),
      ⟨rfl, rfl, rfl, rfl, trivial⟩,
      List.Perm.swap ("a".data, JVal.str "y".data) ("b".data, JVal.str "x".data) []⟩
    (by decide) rfl
